import Mathlib

/-!
Verification of `netbox_switch_sync_vlan.py` (switch running-config parser and
NetBox reconciliation logic).

Python strings are modelled as lists of character code points (`List Nat`);
`str.lower`, `str.strip`, `str.replace`, `str.split`, `str.splitlines` and the
regular-expression searches of the source are embedded as executable functions
over these lists.  Fallible code (`int(...)`, tuple unpacking) is modelled with
`Except Unit`.
-/

/-- A Python string: its list of character code points. -/
abbrev Str := List Nat

/-- Code points of a Lean string literal (used only to write `Str` literals). -/
def s2l (s : String) : Str := s.toList.map Char.toNat

/-- ASCII lowercasing of one code point (`str.lower` on the characters used here). -/
def pyLowerChar (c : Nat) : Nat := if 65 ≤ c ∧ c ≤ 90 then c + 32 else c

/-- `str.lower()`. -/
def pyLower (s : Str) : Str := s.map pyLowerChar

/-- Python whitespace (the characters `str.strip` removes and regex white space class matches
for the ASCII inputs in scope): space, tab, newline, carriage return, vertical tab, form feed. -/
def pyIsSpace (c : Nat) : Bool := c = 32 || c = 9 || c = 10 || c = 13 || c = 11 || c = 12

/-- `str.strip()`: drop leading and trailing whitespace. -/
def pyStrip (s : Str) : Str := ((s.dropWhile pyIsSpace).reverse.dropWhile pyIsSpace).reverse

/-- `str.replace(" ", "")`: delete every space character. -/
def despace (s : Str) : Str := s.filter (fun c => c ≠ 32)

/-- Strip a literal prefix, returning the remainder (`none` when `p` is not a prefix). -/
def dropPfx : Str → Str → Option Str
  | [], l => some l
  | _ :: _, [] => none
  | a :: as, b :: bs => if a = b then dropPfx as bs else none

/-- One fuel-indexed step list of Python `str.replace(old, new)` with non-empty `old`:
scan left to right, replace each non-overlapping occurrence. -/
def replaceFuel (old new : Str) : Nat → Str → Str
  | 0, l => l
  | _ + 1, [] => []
  | fuel + 1, c :: rest =>
    if old ≠ [] ∧ old.isPrefixOf (c :: rest) then
      new ++ replaceFuel old new fuel (rest.drop (old.length - 1))
    else
      c :: replaceFuel old new fuel rest

/-- Python `s.replace(old, new)` for non-empty `old`. -/
def pyReplace (s old new : Str) : Str := replaceFuel old new s.length s

/-- `_normalize_iface_name`, steps before the prefix capitalization: lowercase, strip,
delete spaces, then run the source's four substring replacements in order. -/
def normStem (s : Str) : Str :=
  pyReplace
    (pyReplace
      (pyReplace
        (pyReplace (despace (pyStrip (pyLower s))) (s2l "gigabitethernet") (s2l "gi"))
        (s2l "tengigabitethernet") (s2l "te"))
      (s2l "fastethernet") (s2l "fa"))
    (s2l "port-channel") (s2l "po")

/-- `_normalize_iface_name(iface_name)` from the source: canonicalize an interface
name; when the processed form starts with none of the four short prefixes, the
original input string is returned unchanged. -/
def normalize_iface_name (s : Str) : Str :=
  let n := normStem s
  if (s2l "gi").isPrefixOf n then s2l "Gi" ++ n.drop 2
  else if (s2l "te").isPrefixOf n then s2l "Te" ++ n.drop 2
  else if (s2l "fa").isPrefixOf n then s2l "Fa" ++ n.drop 2
  else if (s2l "po").isPrefixOf n then s2l "Po" ++ n.drop 2
  else s

example : normalize_iface_name (s2l "GigabitEthernet0/1") = s2l "Gi0/1" := by decide
example : normalize_iface_name (s2l "TenGigabitEthernet1/0/1") = s2l "Tengi1/0/1" := by decide
example : normalize_iface_name (s2l "Port-channel10") = s2l "Po10" := by decide
example : normalize_iface_name (s2l "Vlan10") = s2l "Vlan10" := by decide
example : normalize_iface_name (s2l "fast ethernet 0/3") = s2l "Fa0/3" := by decide

/-! ## Data model for reconciliation (section 7 of `main`) -/

/-- Switchport mode as parsed from the running config (`'trunk'` / `'access'`). -/
inductive PMode
  | access
  | trunk
deriving DecidableEq, Repr

/-- `allowed_vlans` value: the `'ALL'` sentinel or a concrete list of VLAN numbers. -/
inductive AllowedVlans
  | all
  | listed (l : List Nat)
deriving DecidableEq, Repr

/-- The per-interface dictionary built by `parse_interface_config`.
An `Option` field set to `none` models the dictionary key being absent. -/
structure ParsedInterface where
  enabled : Option Bool := none
  description : Option Str := none
  voice_vlan : Option Str := none
  channel_group : Option Str := none
  mode : Option PMode := none
  access_vlan : Option Nat := none
  native_vlan : Option Nat := none
  allowed_vlans : Option AllowedVlans := none
  is_port_channel_parent : Bool := false
deriving DecidableEq, Repr

/-- A NetBox interface record (`nb_iface`) as read by the reconciliation loop:
`mode` holds the record's mode value string when one is present,
`untagged_vlan` the current untagged VLAN id, `tagged_vlans` the set of
currently tagged VLAN ids (the loop immediately forms `{v['id'] ...}`). -/
structure RemoteInterfaceRecord where
  id : Nat
  enabled : Option Bool := none
  description : Option Str := none
  mode : Option Str := none
  untagged_vlan : Option Nat := none
  tagged_vlans : Finset Nat := ∅
deriving DecidableEq

/-- NetBox mode vocabulary written by the loop (`'tagged'` / `'access'`). -/
inductive NBMode
  | tagged
  | access
deriving DecidableEq, Repr

/-- The string value the loop writes for an `NBMode`. -/
def NBMode.str : NBMode → Str
  | .tagged => s2l "tagged"
  | .access => s2l "access"

/-- The update `payload` for one interface: the remote id plus a sparse set of
fields to overwrite.  `untagged_vlan = some none` models an explicit `null`,
`tagged_vlans = some t` models writing the list enumerating the set `t`. -/
structure ChangeOperation where
  id : Nat
  enabled : Option Bool := none
  description : Option Str := none
  mode : Option NBMode := none
  untagged_vlan : Option (Option Nat) := none
  tagged_vlans : Option (Finset Nat) := none
deriving DecidableEq

/-- The VLAN translation table `vlan_site_map`: device VLAN number to NetBox VLAN id. -/
abbrev VlanMap := Nat → Option Nat

/-- `'tagged' if live_mode == 'trunk' else 'access' if live_mode == 'access' else None`. -/
def mapLiveMode : Option PMode → Option NBMode
  | some .trunk => some NBMode.tagged
  | some .access => some NBMode.access
  | none => none

/-- `vlan_site_map.get(live_native_vid) if live_native_vid else None`
(Python truthiness: a missing or zero native VLAN number resolves to `None`). -/
def resolveNative (nv : Option Nat) (vmap : VlanMap) : Option Nat :=
  match nv with
  | some v => if v = 0 then none else vmap v
  | none => none

/-- `final_tagged_ids` of the trunk branch: resolve each allowed VLAN number,
skipping the native number and (by `if vlan_id:` truthiness) every number that
is absent from the table or mapped to id `0`; `'ALL'` or an absent key builds
the empty set. -/
def buildTagged (allowed : Option AllowedVlans) (nv : Option Nat) (vmap : VlanMap) : Finset Nat :=
  match allowed with
  | some AllowedVlans.all => ∅
  | none => ∅
  | some (AllowedVlans.listed vids) =>
      vids.foldl (fun s vid =>
        if nv = some vid then s
        else match vmap vid with
          | some x => if x = 0 then s else insert x s
          | none => s) ∅

/-- Enabled comparison: `live_enabled != nb_iface.get('enabled')` with
`live_enabled = live_iface.get('enabled', True)`. -/
def enabledField (live : ParsedInterface) (nb : RemoteInterfaceRecord) : Option Bool :=
  if some (live.enabled.getD true) ≠ nb.enabled then some (live.enabled.getD true) else none

/-- Description comparison: only when the live side has one;
`nb_iface.get('description', '')` treats an absent remote description as empty. -/
def descField (live : ParsedInterface) (nb : RemoteInterfaceRecord) : Option Str :=
  match live.description with
  | some d => if d ≠ nb.description.getD [] then some d else none
  | none => none

/-- Mode comparison, skipped for channel-group members. -/
def modeField (live : ParsedInterface) (nb : RemoteInterfaceRecord) : Option NBMode :=
  if live.channel_group = none then
    match mapLiveMode live.mode with
    | some m => if some m.str ≠ nb.mode then some m else none
    | none => none
  else none

/-- Access branch: the new untagged id when the branch fires
(`live_vlan_vid = live_iface.get('access_vlan') or 1`; change recorded only when
the resolved id exists and differs from the remote untagged id). -/
def accessUntagged (live : ParsedInterface) (nb : RemoteInterfaceRecord) (vmap : VlanMap) :
    Option Nat :=
  match vmap (if live.access_vlan.getD 0 = 0 then 1 else live.access_vlan.getD 0) with
  | some u => if some u ≠ nb.untagged_vlan then some u else none
  | none => none

/-- The `payload['untagged_vlan']` field of the loop. -/
def untaggedField (live : ParsedInterface) (nb : RemoteInterfaceRecord) (vmap : VlanMap) :
    Option (Option Nat) :=
  if live.channel_group = none then
    match mapLiveMode live.mode with
    | some NBMode.access => (accessUntagged live nb vmap).map some
    | some NBMode.tagged =>
        if resolveNative live.native_vlan vmap ≠ nb.untagged_vlan then
          some (resolveNative live.native_vlan vmap)
        else none
    | none => none
  else none

/-- The `payload['tagged_vlans']` field of the loop: the access branch clears the
set whenever it records a new untagged VLAN, the trunk branch writes
`final_tagged_ids` when it differs from the current set. -/
def taggedField (live : ParsedInterface) (nb : RemoteInterfaceRecord) (vmap : VlanMap) :
    Option (Finset Nat) :=
  if live.channel_group = none then
    match mapLiveMode live.mode with
    | some NBMode.access =>
        if (accessUntagged live nb vmap).isSome then some ∅ else none
    | some NBMode.tagged =>
        if buildTagged live.allowed_vlans live.native_vlan vmap ≠ nb.tagged_vlans then
          some (buildTagged live.allowed_vlans live.native_vlan vmap)
        else none
    | none => none
  else none

/-- The full `payload` assembled by one pass of the comparison loop body. -/
def mkOp (live : ParsedInterface) (nb : RemoteInterfaceRecord) (vmap : VlanMap) :
    ChangeOperation :=
  { id := nb.id
    enabled := enabledField live nb
    description := descField live nb
    mode := modeField live nb
    untagged_vlan := untaggedField live nb vmap
    tagged_vlans := taggedField live nb vmap }

/-- `has_changed`: some field beyond the id was added to the payload. -/
def hasChange (p : ChangeOperation) : Bool :=
  p.enabled.isSome || p.description.isSome || p.mode.isSome ||
    p.untagged_vlan.isSome || p.tagged_vlans.isSome

/-- The reconciliation step for one interface pair: the payload appended to
`all_updates` when `has_changed`, otherwise no operation. -/
def reconcile (live : ParsedInterface) (nb : RemoteInterfaceRecord) (vmap : VlanMap) :
    Option ChangeOperation :=
  if hasChange (mkOp live nb vmap) then some (mkOp live nb vmap) else none

/-- Applying a change operation to a remote record: overwrite exactly the fields
the operation carries. -/
def applyOp (nb : RemoteInterfaceRecord) (p : ChangeOperation) : RemoteInterfaceRecord :=
  { id := nb.id
    enabled := match p.enabled with | some b => some b | none => nb.enabled
    description := match p.description with | some d => some d | none => nb.description
    mode := match p.mode with | some m => some m.str | none => nb.mode
    untagged_vlan := match p.untagged_vlan with | some u => u | none => nb.untagged_vlan
    tagged_vlans := (p.tagged_vlans).getD nb.tagged_vlans }

example :
    reconcile { mode := some PMode.trunk, native_vlan := some 10,
                allowed_vlans := some (AllowedVlans.listed [10, 20, 30]) }
      { id := 5, enabled := none, mode := some (s2l "tagged"), untagged_vlan := some 100,
        tagged_vlans := {200, 300} }
      (fun v => if v = 10 then some 100 else if v = 20 then some 200 else
                if v = 30 then some 300 else none) =
    some { id := 5, enabled := some true } := by decide

/-! ## Field inversion lemmas for the assembled payload -/

lemma enabledField_some {live : ParsedInterface} {nb : RemoteInterfaceRecord} {b : Bool}
    (h : enabledField live nb = some b) : nb.enabled ≠ some b := by
  unfold enabledField at h
  split at h
  · next hne =>
      obtain rfl : live.enabled.getD true = b := Option.some.inj h
      exact fun hc => hne hc.symm
  · exact absurd h (by simp)

lemma descField_some {live : ParsedInterface} {nb : RemoteInterfaceRecord} {d : Str}
    (h : descField live nb = some d) : nb.description.getD [] ≠ d := by
  unfold descField at h
  split at h
  · next d0 heq =>
      split at h
      · next hne =>
          obtain rfl : d0 = d := Option.some.inj h
          exact fun hc => hne hc.symm
      · exact absurd h (by simp)
  · exact absurd h (by simp)

lemma modeField_some {live : ParsedInterface} {nb : RemoteInterfaceRecord} {m : NBMode}
    (h : modeField live nb = some m) : nb.mode ≠ some m.str := by
  unfold modeField at h
  split at h
  · split at h
    · next m0 heq =>
        split at h
        · next hne =>
            obtain rfl : m0 = m := Option.some.inj h
            exact fun hc => hne hc.symm
        · exact absurd h (by simp)
    · exact absurd h (by simp)
  · exact absurd h (by simp)

lemma accessUntagged_some {live : ParsedInterface} {nb : RemoteInterfaceRecord} {vmap : VlanMap}
    {u : Nat} (h : accessUntagged live nb vmap = some u) : nb.untagged_vlan ≠ some u := by
  unfold accessUntagged at h
  split at h
  · next u0 heq =>
      split at h
      · next hne =>
          obtain rfl : u0 = u := Option.some.inj h
          exact fun hc => hne hc.symm
      · exact absurd h (by simp)
  · exact absurd h (by simp)

lemma untaggedField_some {live : ParsedInterface} {nb : RemoteInterfaceRecord} {vmap : VlanMap}
    {u : Option Nat} (h : untaggedField live nb vmap = some u) : nb.untagged_vlan ≠ u := by
  unfold untaggedField at h
  split at h
  · split at h
    · -- access branch
      rcases hA : accessUntagged live nb vmap with _ | u0 <;> rw [hA] at h
      · exact absurd h (by simp)
      · obtain rfl : some u0 = u := by simpa using h
        exact accessUntagged_some hA
    · -- trunk branch
      split at h
      · next hne =>
          obtain rfl : resolveNative live.native_vlan vmap = u := Option.some.inj h
          exact fun hc => hne hc.symm
      · exact absurd h (by simp)
    · exact absurd h (by simp)
  · exact absurd h (by simp)

lemma taggedField_some {live : ParsedInterface} {nb : RemoteInterfaceRecord} {vmap : VlanMap}
    {t : Finset Nat} (h : taggedField live nb vmap = some t) :
    nb.tagged_vlans ≠ t ∨ (mapLiveMode live.mode = some NBMode.access ∧ t = ∅) := by
  unfold taggedField at h
  split at h
  · split at h
    · -- access branch
      next heq =>
        split at h
        · exact Or.inr ⟨heq, (Option.some.inj h).symm⟩
        · exact absurd h (by simp)
    · -- trunk branch
      split at h
      · next hne =>
          obtain rfl : buildTagged live.allowed_vlans live.native_vlan vmap = t :=
            Option.some.inj h
          exact Or.inl fun hc => hne hc.symm
      · exact absurd h (by simp)
    · exact absurd h (by simp)
  · exact absurd h (by simp)

lemma reconcile_some {live : ParsedInterface} {nb : RemoteInterfaceRecord} {vmap : VlanMap}
    {p : ChangeOperation} (h : reconcile live nb vmap = some p) : p = mkOp live nb vmap := by
  unfold reconcile at h
  split at h
  · exact (Option.some.inj h).symm
  · exact absurd h (by simp)

/-- C1 counterexample input: an access port whose remote record already has an
empty tagged set and no untagged VLAN. -/
def c1live : ParsedInterface := { mode := some PMode.access, access_vlan := some 5 }

def c1nb : RemoteInterfaceRecord :=
  { id := 1, enabled := some true, mode := some (s2l "access") }

def c1vmap : VlanMap := fun v => if v = 5 then some 50 else none

/-- C1 counterexample: the claim states the returned operation "contains no field
whose new value equals the corresponding current remote value", but here the
operation carries `tagged_vlans` equal to the remote record's current (empty)
tagged set: the access branch clears the tagged set unconditionally whenever it
records a new untagged VLAN. -/
theorem claim_C1_counterexample :
    reconcile c1live c1nb c1vmap =
      some { id := 1, untagged_vlan := some (some 50), tagged_vlans := some ∅ } ∧
    (some { id := 1, untagged_vlan := some (some 50), tagged_vlans := some ∅ }
        : Option ChangeOperation).any (fun p => p.tagged_vlans = some c1nb.tagged_vlans) := by
  constructor
  · rfl
  · decide

/-- C1 (amended): if `reconcile` returns an operation, the operation carries the
remote record's id and no field whose new value equals the corresponding current
remote value, with one exception: the tagged-VLAN clear emitted by the access
branch alongside a new untagged VLAN, which may equal an already-empty remote
tagged set. -/
theorem claim_C1_theorem (live : ParsedInterface) (nb : RemoteInterfaceRecord) (vmap : VlanMap)
    (p : ChangeOperation) (h : reconcile live nb vmap = some p) :
    p.id = nb.id ∧
    (∀ b, p.enabled = some b → nb.enabled ≠ some b) ∧
    (∀ d, p.description = some d → nb.description.getD [] ≠ d) ∧
    (∀ m, p.mode = some m → nb.mode ≠ some m.str) ∧
    (∀ u, p.untagged_vlan = some u → nb.untagged_vlan ≠ u) ∧
    (∀ t, p.tagged_vlans = some t →
        nb.tagged_vlans ≠ t ∨ (mapLiveMode live.mode = some NBMode.access ∧ t = ∅)) := by
  obtain rfl := reconcile_some h
  refine ⟨rfl, ?_, ?_, ?_, ?_, ?_⟩
  · exact fun b hb => enabledField_some hb
  · exact fun d hd => descField_some hd
  · exact fun m hm => modeField_some hm
  · exact fun u hu => untaggedField_some hu
  · exact fun t ht => taggedField_some ht

/-- Witness for C1 at a concrete disabled interface. -/
theorem claim_C1_witness :
    reconcile { enabled := some false } { id := 7, enabled := some true } (fun _ => none) =
      some { id := 7, enabled := some false } ∧
    (({ id := 7, enabled := some false } : ChangeOperation).id =
        ({ id := 7, enabled := some true } : RemoteInterfaceRecord).id ∧
      (∀ b, ({ id := 7, enabled := some false } : ChangeOperation).enabled = some b →
        ({ id := 7, enabled := some true } : RemoteInterfaceRecord).enabled ≠ some b) ∧
      (∀ d, ({ id := 7, enabled := some false } : ChangeOperation).description = some d →
        ({ id := 7, enabled := some true } : RemoteInterfaceRecord).description.getD [] ≠ d) ∧
      (∀ m, ({ id := 7, enabled := some false } : ChangeOperation).mode = some m →
        ({ id := 7, enabled := some true } : RemoteInterfaceRecord).mode ≠ some m.str) ∧
      (∀ u, ({ id := 7, enabled := some false } : ChangeOperation).untagged_vlan = some u →
        ({ id := 7, enabled := some true } : RemoteInterfaceRecord).untagged_vlan ≠ u) ∧
      (∀ t, ({ id := 7, enabled := some false } : ChangeOperation).tagged_vlans = some t →
        ({ id := 7, enabled := some true } : RemoteInterfaceRecord).tagged_vlans ≠ t ∨
          (mapLiveMode ({ enabled := some false } : ParsedInterface).mode = some NBMode.access ∧
            t = ∅))) :=
  ⟨rfl, claim_C1_theorem { enabled := some false } { id := 7, enabled := some true }
    (fun _ => none) { id := 7, enabled := some false } rfl⟩

/-! ## Idempotence of the reconciliation step (C5) -/

lemma mkOp_enabled (live : ParsedInterface) (nb : RemoteInterfaceRecord) (vmap : VlanMap) :
    (mkOp live nb vmap).enabled = enabledField live nb := rfl

lemma mkOp_description (live : ParsedInterface) (nb : RemoteInterfaceRecord) (vmap : VlanMap) :
    (mkOp live nb vmap).description = descField live nb := rfl

lemma mkOp_mode (live : ParsedInterface) (nb : RemoteInterfaceRecord) (vmap : VlanMap) :
    (mkOp live nb vmap).mode = modeField live nb := rfl

lemma mkOp_untagged (live : ParsedInterface) (nb : RemoteInterfaceRecord) (vmap : VlanMap) :
    (mkOp live nb vmap).untagged_vlan = untaggedField live nb vmap := rfl

lemma mkOp_tagged (live : ParsedInterface) (nb : RemoteInterfaceRecord) (vmap : VlanMap) :
    (mkOp live nb vmap).tagged_vlans = taggedField live nb vmap := rfl

lemma applyOp_enabled (nb : RemoteInterfaceRecord) (p : ChangeOperation) :
    (applyOp nb p).enabled = match p.enabled with | some b => some b | none => nb.enabled := rfl

lemma applyOp_description (nb : RemoteInterfaceRecord) (p : ChangeOperation) :
    (applyOp nb p).description =
      match p.description with | some d => some d | none => nb.description := rfl

lemma applyOp_mode (nb : RemoteInterfaceRecord) (p : ChangeOperation) :
    (applyOp nb p).mode = match p.mode with | some m => some m.str | none => nb.mode := rfl

lemma applyOp_untagged (nb : RemoteInterfaceRecord) (p : ChangeOperation) :
    (applyOp nb p).untagged_vlan =
      match p.untagged_vlan with | some u => u | none => nb.untagged_vlan := rfl

lemma applyOp_tagged (nb : RemoteInterfaceRecord) (p : ChangeOperation) :
    (applyOp nb p).tagged_vlans = (p.tagged_vlans).getD nb.tagged_vlans := rfl

lemma enabledField_idem (live : ParsedInterface) (nb : RemoteInterfaceRecord) (vmap : VlanMap) :
    enabledField live (applyOp nb (mkOp live nb vmap)) = none := by
  by_cases hc : some (live.enabled.getD true) = nb.enabled <;>
    simp [enabledField, applyOp, mkOp, hc]

lemma descField_idem (live : ParsedInterface) (nb : RemoteInterfaceRecord) (vmap : VlanMap) :
    descField live (applyOp nb (mkOp live nb vmap)) = none := by
  rcases hld : live.description with _ | d
  · simp [descField, hld]
  · by_cases hc : d = nb.description.getD [] <;>
      simp [descField, applyOp, mkOp, hld, hc]

lemma modeField_idem (live : ParsedInterface) (nb : RemoteInterfaceRecord) (vmap : VlanMap) :
    modeField live (applyOp nb (mkOp live nb vmap)) = none := by
  rcases hcg : live.channel_group with _ | g
  · rcases hm : mapLiveMode live.mode with _ | m
    · simp [modeField, applyOp, mkOp, hcg, hm]
    · by_cases hc : some m.str = nb.mode <;>
        simp [modeField, applyOp, mkOp, hcg, hm, hc]
  · simp [modeField, applyOp, mkOp, hcg]

lemma accessUntagged_inv {live : ParsedInterface} {nb : RemoteInterfaceRecord} {vmap : VlanMap}
    {u : Nat} (h : accessUntagged live nb vmap = some u) :
    vmap (if live.access_vlan.getD 0 = 0 then 1 else live.access_vlan.getD 0) = some u := by
  unfold accessUntagged at h
  split at h
  · next u0 heq =>
      split at h
      · rw [heq]; exact congrArg _ (Option.some.inj h)
      · exact absurd h (by simp)
  · exact absurd h (by simp)

lemma accessUntagged_idem (live : ParsedInterface) (nb : RemoteInterfaceRecord) (vmap : VlanMap)
    (hcg : live.channel_group = none) (hm : mapLiveMode live.mode = some NBMode.access) :
    accessUntagged live (applyOp nb (mkOp live nb vmap)) vmap = none := by
  rcases hA : accessUntagged live nb vmap with _ | u
  · have hsame : (applyOp nb (mkOp live nb vmap)).untagged_vlan = nb.untagged_vlan := by
      simp [applyOp_untagged, mkOp, untaggedField, hcg, hm, hA]
    unfold accessUntagged at hA ⊢
    rw [hsame]
    exact hA
  · have h1 := accessUntagged_inv hA
    have h2 : (applyOp nb (mkOp live nb vmap)).untagged_vlan = some u := by
      simp [applyOp_untagged, mkOp, untaggedField, hcg, hm, hA]
    unfold accessUntagged
    rw [h2, h1]
    simp

lemma untaggedField_idem (live : ParsedInterface) (nb : RemoteInterfaceRecord) (vmap : VlanMap) :
    untaggedField live (applyOp nb (mkOp live nb vmap)) vmap = none := by
  rcases hcg : live.channel_group with _ | g
  · rcases hm : mapLiveMode live.mode with _ | m
    · simp [untaggedField, hcg, hm]
    · cases m
      · -- trunk ('tagged') branch
        by_cases hc : resolveNative live.native_vlan vmap = nb.untagged_vlan <;>
          simp [untaggedField, applyOp, mkOp, hcg, hm, hc]
      · -- access branch
        simp [untaggedField, hcg, hm, accessUntagged_idem live nb vmap hcg hm]
  · simp [untaggedField, hcg]

lemma taggedField_idem (live : ParsedInterface) (nb : RemoteInterfaceRecord) (vmap : VlanMap) :
    taggedField live (applyOp nb (mkOp live nb vmap)) vmap = none := by
  rcases hcg : live.channel_group with _ | g
  · rcases hm : mapLiveMode live.mode with _ | m
    · simp [taggedField, hcg, hm]
    · cases m
      · by_cases hc : buildTagged live.allowed_vlans live.native_vlan vmap = nb.tagged_vlans <;>
          simp [taggedField, applyOp, mkOp, hcg, hm, hc]
      · simp [taggedField, hcg, hm, accessUntagged_idem live nb vmap hcg hm]
  · simp [taggedField, hcg]

/-- C5: the reconciliation step is idempotent — applying the returned operation's
fields to the remote record and reconciling again yields no operation. -/
theorem claim_C5_theorem (live : ParsedInterface) (nb : RemoteInterfaceRecord) (vmap : VlanMap)
    (p : ChangeOperation) (h : reconcile live nb vmap = some p) :
    reconcile live (applyOp nb p) vmap = none := by
  obtain rfl := reconcile_some h
  have hall : hasChange (mkOp live (applyOp nb (mkOp live nb vmap)) vmap) = false := by
    simp only [hasChange, mkOp_enabled, mkOp_description, mkOp_mode, mkOp_untagged,
      mkOp_tagged, enabledField_idem, descField_idem, modeField_idem, untaggedField_idem,
      taggedField_idem, Option.isSome_none, Bool.or_self]
  unfold reconcile
  rw [hall]
  simp

/-- Witness for C5: a trunk interface whose native and allowed VLANs differ from
the remote record; after applying the computed operation, reconciling is silent. -/
theorem claim_C5_witness :
    reconcile
        { mode := some PMode.trunk, native_vlan := some 10,
          allowed_vlans := some (AllowedVlans.listed [10, 20, 30]) }
        { id := 5, enabled := some true, mode := some (s2l "access") }
        (fun v => if v = 10 then some 100 else if v = 20 then some 200 else
                  if v = 30 then some 300 else none) =
      some { id := 5, mode := some NBMode.tagged, untagged_vlan := some (some 100),
             tagged_vlans := some {300, 200} } ∧
    reconcile
        { mode := some PMode.trunk, native_vlan := some 10,
          allowed_vlans := some (AllowedVlans.listed [10, 20, 30]) }
        (applyOp { id := 5, enabled := some true, mode := some (s2l "access") }
          { id := 5, mode := some NBMode.tagged, untagged_vlan := some (some 100),
            tagged_vlans := some {300, 200} })
        (fun v => if v = 10 then some 100 else if v = 20 then some 200 else
                  if v = 30 then some 300 else none) = none := by
  constructor
  · rfl
  · exact claim_C5_theorem _ _ _ _ rfl

/-! ## Channel-group members are inert (C9) -/

/-- C9: when the parsed interface carries a `channel_group`, any operation
returned by `reconcile` has no mode, untagged-VLAN or tagged-VLAN field. -/
theorem claim_C9_theorem (live : ParsedInterface) (nb : RemoteInterfaceRecord) (vmap : VlanMap)
    (p : ChangeOperation) (h : reconcile live nb vmap = some p)
    (hc : live.channel_group ≠ none) :
    p.mode = none ∧ p.untagged_vlan = none ∧ p.tagged_vlans = none := by
  obtain rfl := reconcile_some h
  refine ⟨?_, ?_, ?_⟩
  · rw [mkOp_mode]; unfold modeField; simp [hc]
  · rw [mkOp_untagged]; unfold untaggedField; simp [hc]
  · rw [mkOp_tagged]; unfold taggedField; simp [hc]

/-- Witness for C9: a disabled channel member whose remote record differs in
mode and VLANs still yields an operation touching only `enabled`. -/
theorem claim_C9_witness :
    reconcile { enabled := some false, channel_group := some (s2l "1"),
                mode := some PMode.access, access_vlan := some 5 }
        { id := 9, enabled := some true, mode := some (s2l "tagged"),
          untagged_vlan := some 77, tagged_vlans := {88} }
        (fun v => if v = 5 then some 50 else none) =
      some { id := 9, enabled := some false } ∧
    (({ id := 9, enabled := some false } : ChangeOperation).mode = none ∧
     ({ id := 9, enabled := some false } : ChangeOperation).untagged_vlan = none ∧
     ({ id := 9, enabled := some false } : ChangeOperation).tagged_vlans = none) := by
  constructor
  · rfl
  · exact claim_C9_theorem
      { enabled := some false, channel_group := some (s2l "1"),
        mode := some PMode.access, access_vlan := some 5 }
      { id := 9, enabled := some true, mode := some (s2l "tagged"),
        untagged_vlan := some 77, tagged_vlans := {88} }
      (fun v => if v = 5 then some 50 else none)
      { id := 9, enabled := some false } rfl (by simp)

/-! ## Unresolvable native VLAN clears the untagged field (C10) -/

/-- C10: on a trunk interface (not a channel member) whose native VLAN number is
absent from the translation table, when the remote record currently carries an
untagged VLAN, `reconcile` returns an operation recording an explicit clear
(`untagged_vlan` set to null). -/
theorem claim_C10_theorem (live : ParsedInterface) (nb : RemoteInterfaceRecord) (vmap : VlanMap)
    (v u : Nat) (h1 : live.mode = some PMode.trunk) (hcg : live.channel_group = none)
    (h3 : live.native_vlan = some v) (h4 : vmap v = none)
    (h5 : nb.untagged_vlan = some u) :
    ∃ p, reconcile live nb vmap = some p ∧ p.untagged_vlan = some none := by
  have hres : resolveNative live.native_vlan vmap = none := by
    rw [h3]; unfold resolveNative
    by_cases hv0 : v = 0 <;> simp [hv0, h4]
  have hunt : untaggedField live nb vmap = some none := by
    unfold untaggedField
    rw [hcg, h1]
    simp only [mapLiveMode, hres, h5]
    simp
  refine ⟨mkOp live nb vmap, ?_, ?_⟩
  · unfold reconcile
    have : hasChange (mkOp live nb vmap) = true := by
      simp [hasChange, mkOp_untagged, hunt]
    rw [this]
    simp
  · rw [mkOp_untagged, hunt]

/-- Witness for C10: native VLAN 99 missing from the table, remote untagged 100. -/
theorem claim_C10_witness :
    ∃ p, reconcile { mode := some PMode.trunk, native_vlan := some 99,
                     allowed_vlans := some AllowedVlans.all }
        { id := 4, enabled := some true, mode := some (s2l "tagged"), untagged_vlan := some 100 }
        (fun _ => none) = some p ∧ p.untagged_vlan = some none :=
  claim_C10_theorem
    { mode := some PMode.trunk, native_vlan := some 99, allowed_vlans := some AllowedVlans.all }
    { id := 4, enabled := some true, mode := some (s2l "tagged"), untagged_vlan := some 100 }
    (fun _ => none) 99 100 rfl rfl rfl rfl rfl

/-! ## Trunk target tagged set (C7) -/

lemma buildTagged_fold_mem (nv : Option Nat) (vmap : VlanMap) (l : List Nat) :
    ∀ (s : Finset Nat) (x : Nat),
      (x ∈ l.foldl (fun s vid =>
          if nv = some vid then s
          else match vmap vid with
            | some y => if y = 0 then s else insert y s
            | none => s) s) ↔
        x ∈ s ∨ ∃ v ∈ l, nv ≠ some v ∧ vmap v = some x ∧ x ≠ 0 := by
  induction l with
  | nil => simp
  | cons v tl ih =>
      intro s x
      rw [List.foldl_cons, ih]
      by_cases hnv : nv = some v
      · simp only [if_pos hnv]
        constructor
        · rintro (hx | ⟨w, hw, hrest⟩)
          · exact Or.inl hx
          · exact Or.inr ⟨w, List.mem_cons_of_mem _ hw, hrest⟩
        · rintro (hx | ⟨w, hw, hne, hrest⟩)
          · exact Or.inl hx
          · rcases List.mem_cons.mp hw with rfl | hw
            · exact absurd hnv hne
            · exact Or.inr ⟨w, hw, hne, hrest⟩
      · rcases hv : vmap v with _ | y
        · simp only [if_neg hnv, hv]
          constructor
          · rintro (hx | ⟨w, hw, hrest⟩)
            · exact Or.inl hx
            · exact Or.inr ⟨w, List.mem_cons_of_mem _ hw, hrest⟩
          · rintro (hx | ⟨w, hw, hne, hmap, hx0⟩)
            · exact Or.inl hx
            · rcases List.mem_cons.mp hw with rfl | hw
              · exact absurd (hv.symm.trans hmap) (by simp)
              · exact Or.inr ⟨w, hw, hne, hmap, hx0⟩
        · by_cases hy0 : y = 0
          · subst hy0
            simp only [if_neg hnv, hv, if_pos rfl]
            constructor
            · rintro (hx | ⟨w, hw, hrest⟩)
              · exact Or.inl hx
              · exact Or.inr ⟨w, List.mem_cons_of_mem _ hw, hrest⟩
            · rintro (hx | ⟨w, hw, hne, hmap, hx0⟩)
              · exact Or.inl hx
              · rcases List.mem_cons.mp hw with rfl | hw
                · exact absurd (Option.some.inj (hv.symm.trans hmap)) fun he => hx0 he.symm
                · exact Or.inr ⟨w, hw, hne, hmap, hx0⟩
          · simp only [if_neg hnv, hv, if_neg hy0, Finset.mem_insert]
            constructor
            · rintro ((rfl | hx) | ⟨w, hw, hrest⟩)
              · exact Or.inr ⟨v, List.mem_cons_self v tl, hnv, hv, hy0⟩
              · exact Or.inl hx
              · exact Or.inr ⟨w, List.mem_cons_of_mem _ hw, hrest⟩
            · rintro (hx | ⟨w, hw, hne, hmap, hx0⟩)
              · exact Or.inl (Or.inr hx)
              · rcases List.mem_cons.mp hw with rfl | hw
                · exact Or.inl (Or.inl (Option.some.inj (hmap.symm.trans hv)))
                · exact Or.inr ⟨w, hw, hne, hmap, hx0⟩

lemma buildTagged_mem (l : List Nat) (nv : Option Nat) (vmap : VlanMap) (x : Nat) :
    x ∈ buildTagged (some (AllowedVlans.listed l)) nv vmap ↔
      ∃ v ∈ l, nv ≠ some v ∧ vmap v = some x ∧ x ≠ 0 := by
  unfold buildTagged
  rw [buildTagged_fold_mem]
  simp

/-- The target tagged set as the claim words it: resolve every allowed number
through the table, excluding only the native number and the numbers absent from
the table.  Stated from the claim, for comparison against `buildTagged`. -/
def claimTargetTagged (l : List Nat) (nv : Option Nat) (vmap : VlanMap) : Finset Nat :=
  l.foldl (fun s v =>
    if nv = some v then s
    else match vmap v with
      | some x => insert x s
      | none => s) ∅

/-- C7 counterexample: with the table mapping 20 to the id 0, the claim's target
set is `{0}` but the code's `if vlan_id:` truthiness also drops ids equal to 0,
building the empty set instead. -/
theorem claim_C7_counterexample :
    buildTagged (some (AllowedVlans.listed [20])) none (fun v => if v = 20 then some 0 else none)
      = ∅ ∧
    claimTargetTagged [20] none (fun v => if v = 20 then some 0 else none) = {0} ∧
    (∅ : Finset Nat) ≠ ({0} : Finset Nat) := by
  refine ⟨rfl, rfl, ?_⟩
  decide

/-- C7 (amended): for a trunk-mode, non-channel-member interface, the target
tagged set contains exactly the table images of the allowed VLAN numbers,
excluding the native VLAN number and dropping numbers absent from the table or
mapped to the falsy id 0; the `ALL` sentinel builds the empty target set; and
the comparison against the remote record's tagged set is set equality
(order-independent): no `tagged_vlans` field is emitted iff the two sets are equal. -/
theorem claim_C7_theorem (live : ParsedInterface) (nb : RemoteInterfaceRecord) (vmap : VlanMap)
    (h1 : live.mode = some PMode.trunk) (hcg : live.channel_group = none) :
    (∀ l, live.allowed_vlans = some (AllowedVlans.listed l) →
        ∀ x, x ∈ buildTagged live.allowed_vlans live.native_vlan vmap ↔
          ∃ v ∈ l, live.native_vlan ≠ some v ∧ vmap v = some x ∧ x ≠ 0) ∧
    (live.allowed_vlans = some AllowedVlans.all →
        buildTagged live.allowed_vlans live.native_vlan vmap = ∅) ∧
    (taggedField live nb vmap = none ↔
        buildTagged live.allowed_vlans live.native_vlan vmap = nb.tagged_vlans) := by
  refine ⟨?_, ?_, ?_⟩
  · intro l hl x
    rw [hl, buildTagged_mem]
  · intro hl
    rw [hl]
    rfl
  · unfold taggedField
    rw [hcg, h1]
    simp only [mapLiveMode]
    by_cases hc : buildTagged live.allowed_vlans live.native_vlan vmap = nb.tagged_vlans <;>
      simp [hc]

/-- Witness for C7 at the claim's example: native 10, allowed {10,20,30},
table 10 to 100, 20 to 200, 30 to 300; the target set is {200,300}. -/
theorem claim_C7_witness :
    ((∀ l, ({ mode := some PMode.trunk, native_vlan := some 10,
              allowed_vlans := some (AllowedVlans.listed [10, 20, 30]) }
            : ParsedInterface).allowed_vlans = some (AllowedVlans.listed l) →
        ∀ x, x ∈ buildTagged (some (AllowedVlans.listed [10, 20, 30])) (some 10)
            (fun v => if v = 10 then some 100 else if v = 20 then some 200 else
                      if v = 30 then some 300 else none) ↔
          ∃ v ∈ l, (some 10 : Option Nat) ≠ some v ∧
            (fun v => if v = 10 then some 100 else if v = 20 then some 200 else
                      if v = 30 then some 300 else none) v = some x ∧ x ≠ 0) ∧
      (({ mode := some PMode.trunk, native_vlan := some 10,
          allowed_vlans := some (AllowedVlans.listed [10, 20, 30]) }
            : ParsedInterface).allowed_vlans = some AllowedVlans.all →
        buildTagged (some (AllowedVlans.listed [10, 20, 30])) (some 10)
            (fun v => if v = 10 then some 100 else if v = 20 then some 200 else
                      if v = 30 then some 300 else none) = ∅) ∧
      (taggedField
          { mode := some PMode.trunk, native_vlan := some 10,
            allowed_vlans := some (AllowedVlans.listed [10, 20, 30]) }
          { id := 5, tagged_vlans := {200, 300} }
          (fun v => if v = 10 then some 100 else if v = 20 then some 200 else
                    if v = 30 then some 300 else none) = none ↔
        buildTagged (some (AllowedVlans.listed [10, 20, 30])) (some 10)
            (fun v => if v = 10 then some 100 else if v = 20 then some 200 else
                      if v = 30 then some 300 else none) = ({200, 300} : Finset Nat))) ∧
    buildTagged (some (AllowedVlans.listed [10, 20, 30])) (some 10)
        (fun v => if v = 10 then some 100 else if v = 20 then some 200 else
                  if v = 30 then some 300 else none) = ({200, 300} : Finset Nat) :=
  ⟨claim_C7_theorem
      { mode := some PMode.trunk, native_vlan := some 10,
        allowed_vlans := some (AllowedVlans.listed [10, 20, 30]) }
      { id := 5, tagged_vlans := {200, 300} }
      (fun v => if v = 10 then some 100 else if v = 20 then some 200 else
                if v = 30 then some 300 else none) rfl rfl,
    by decide⟩

/-! ## Idempotence of interface-name normalization (C6) -/

/-- C6 counterexample: normalization is not idempotent on every string.  On
`"gigabitethernetgabitethernet"` the first replacement rebuilds the substring
`gigabitethernet`, so the first pass returns `"Gigabitethernet"` and a second
pass shortens it further to `"Gi"`. -/
theorem claim_C6_counterexample :
    normalize_iface_name (s2l "gigabitethernetgabitethernet") = s2l "Gigabitethernet" ∧
    normalize_iface_name (normalize_iface_name (s2l "gigabitethernetgabitethernet")) =
      s2l "Gi" ∧
    normalize_iface_name (normalize_iface_name (s2l "gigabitethernetgabitethernet")) ≠
      normalize_iface_name (s2l "gigabitethernetgabitethernet") := by
  refine ⟨by decide, by decide, by decide⟩

/-- C6 (amended): normalization is idempotent on every input whose normalized
form is stable under the canonicalization pipeline — lowercasing, stripping,
space removal and the four substring replacements give the same stem for
`normalize(x)` as for `x`.  (The counterexample shows inputs where a replacement
fires again on the normalized form, shortening the name a second time.) -/
theorem claim_C6_theorem (x : Str)
    (h : normStem (normalize_iface_name x) = normStem x) :
    normalize_iface_name (normalize_iface_name x) = normalize_iface_name x := by
  by_cases h1 : (s2l "gi").isPrefixOf (normStem x) = true
  · have hval : normalize_iface_name x = s2l "Gi" ++ (normStem x).drop 2 := by
      unfold normalize_iface_name
      rw [if_pos h1]
    rw [hval] at h ⊢
    unfold normalize_iface_name
    rw [h, if_pos h1]
  · by_cases h2 : (s2l "te").isPrefixOf (normStem x) = true
    · have hval : normalize_iface_name x = s2l "Te" ++ (normStem x).drop 2 := by
        unfold normalize_iface_name
        rw [if_neg h1, if_pos h2]
      rw [hval] at h ⊢
      unfold normalize_iface_name
      rw [h, if_neg h1, if_pos h2]
    · by_cases h3 : (s2l "fa").isPrefixOf (normStem x) = true
      · have hval : normalize_iface_name x = s2l "Fa" ++ (normStem x).drop 2 := by
          unfold normalize_iface_name
          rw [if_neg h1, if_neg h2, if_pos h3]
        rw [hval] at h ⊢
        unfold normalize_iface_name
        rw [h, if_neg h1, if_neg h2, if_pos h3]
      · by_cases h4 : (s2l "po").isPrefixOf (normStem x) = true
        · have hval : normalize_iface_name x = s2l "Po" ++ (normStem x).drop 2 := by
            unfold normalize_iface_name
            rw [if_neg h1, if_neg h2, if_neg h3, if_pos h4]
          rw [hval] at h ⊢
          unfold normalize_iface_name
          rw [h, if_neg h1, if_neg h2, if_neg h3, if_pos h4]
        · have hval : normalize_iface_name x = x := by
            unfold normalize_iface_name
            rw [if_neg h1, if_neg h2, if_neg h3, if_neg h4]
          rw [hval]
          exact hval

/-- Witness for C6 at a long-form name. -/
theorem claim_C6_witness :
    normStem (normalize_iface_name (s2l "TenGigabitEthernet1/0/1")) =
      normStem (s2l "TenGigabitEthernet1/0/1") ∧
    normalize_iface_name (normalize_iface_name (s2l "TenGigabitEthernet1/0/1")) =
      normalize_iface_name (s2l "TenGigabitEthernet1/0/1") :=
  ⟨by decide, claim_C6_theorem (s2l "TenGigabitEthernet1/0/1") (by decide)⟩

/-! ## Equations and helper lemmas for `pyReplace` -/

lemma replaceFuel_congr (old new : Str) :
    ∀ (fuel fuel2 : Nat) (l : Str), l.length ≤ fuel → l.length ≤ fuel2 →
      replaceFuel old new fuel l = replaceFuel old new fuel2 l := by
  intro fuel
  induction fuel with
  | zero =>
      intro fuel2 l h1 _
      have : l = [] := List.length_eq_zero.mp (Nat.le_zero.mp h1)
      subst this
      cases fuel2 <;> rfl
  | succ f ih =>
      intro fuel2 l h1 h2
      cases l with
      | nil => cases fuel2 <;> rfl
      | cons c rest =>
          cases fuel2 with
          | zero => exact absurd h2 (by simp)
          | succ f2 =>
              show (if old ≠ [] ∧ old.isPrefixOf (c :: rest) then
                      new ++ replaceFuel old new f (rest.drop (old.length - 1))
                    else c :: replaceFuel old new f rest) =
                   (if old ≠ [] ∧ old.isPrefixOf (c :: rest) then
                      new ++ replaceFuel old new f2 (rest.drop (old.length - 1))
                    else c :: replaceFuel old new f2 rest)
              have hr : rest.length ≤ f := by
                have := h1
                simp only [List.length_cons] at this
                omega
              have hr2 : rest.length ≤ f2 := by
                have := h2
                simp only [List.length_cons] at this
                omega
              have hd : (rest.drop (old.length - 1)).length ≤ rest.length := by
                rw [List.length_drop]
                omega
              split
              · rw [ih f2 _ (le_trans hd hr) (le_trans hd hr2)]
              · rw [ih f2 _ hr hr2]

lemma pyReplace_cons_pos {old : Str} (new : Str) {c : Nat} {rest : Str}
    (hne : old ≠ []) (hp : old.isPrefixOf (c :: rest) = true) :
    pyReplace (c :: rest) old new = new ++ pyReplace (rest.drop (old.length - 1)) old new := by
  unfold pyReplace
  show replaceFuel old new (rest.length + 1) (c :: rest) = _
  rw [replaceFuel, if_pos ⟨hne, hp⟩]
  congr 1
  apply replaceFuel_congr
  · rw [List.length_drop]; omega
  · exact le_refl _

lemma pyReplace_cons_neg {old : Str} (new : Str) {c : Nat} {rest : Str}
    (hp : old.isPrefixOf (c :: rest) = false) :
    pyReplace (c :: rest) old new = c :: pyReplace rest old new := by
  unfold pyReplace
  show replaceFuel old new (rest.length + 1) (c :: rest) = _
  rw [replaceFuel, if_neg (by simp [hp])]

lemma pyReplace_append_pat {old : Str} (hne : old ≠ []) (new rest : Str) :
    pyReplace (old ++ rest) old new = new ++ pyReplace rest old new := by
  cases old with
  | nil => exact absurd rfl hne
  | cons o os =>
      rw [List.cons_append]
      rw [pyReplace_cons_pos new hne
        (List.isPrefixOf_iff_prefix.mpr (by rw [← List.cons_append]; exact List.prefix_append _ _))]
      congr 2
      simp only [List.length_cons]
      rw [Nat.add_sub_cancel]
      exact List.drop_left os rest

lemma pyReplace_eq_self_of_no_occur {old new l : Str} (p : Nat → Bool)
    (hall : ∀ c ∈ l, p c = true) (hbad : ∃ b ∈ old, p b = false) :
    pyReplace l old new = l := by
  induction l with
  | nil => rfl
  | cons c r ih =>
      have hnp : old.isPrefixOf (c :: r) = false := by
        by_contra hcon
        rcases hbad with ⟨b, hb, hpb⟩
        have hmem : b ∈ c :: r :=
          (List.isPrefixOf_iff_prefix.mp (by revert hcon; cases old.isPrefixOf (c :: r) <;>
            simp)).subset hb
        rw [hall b hmem] at hpb
        exact Bool.noConfusion hpb
      rw [pyReplace_cons_neg new hnp, ih (fun c hc => hall c (List.mem_cons_of_mem _ hc))]

lemma isPrefixOf_false_of_head (a b : Nat) (old l : Str)
    (ha : old.head? = some a) (hb : l.head? = some b) (hne : a ≠ b) :
    old.isPrefixOf l = false := by
  cases old with
  | nil => exact absurd ha (by simp)
  | cons o os =>
      cases l with
      | nil => rfl
      | cons x xs =>
          have h1 : o = a := by simpa using ha
          have h2 : x = b := by simpa using hb
          show (o == x && os.isPrefixOf xs) = false
          simp [h1, h2, hne]

/-! ## Pipeline fixedness lemmas -/

/-- Characters that may follow an interface-name prefix: digits, `/`, `.`, `:`, `-`. -/
def plainChar (c : Nat) : Bool := (48 ≤ c && c ≤ 57) || c = 47 || c = 46 || c = 58 || c = 45

lemma plain_lower {c : Nat} (h : plainChar c = true) : pyLowerChar c = c := by
  have : c < 65 := by
    simp only [plainChar, Bool.or_eq_true, Bool.and_eq_true, decide_eq_true_eq] at h
    omega
  unfold pyLowerChar
  rw [if_neg (by omega)]

lemma plain_not_space {c : Nat} (h : plainChar c = true) : pyIsSpace c = false := by
  simp only [plainChar, Bool.or_eq_true, Bool.and_eq_true, decide_eq_true_eq] at h
  simp only [pyIsSpace, Bool.or_eq_false_iff, decide_eq_false_iff_not]
  omega

lemma map_id_of_mem {f : Nat → Nat} {l : Str} (h : ∀ c ∈ l, f c = c) : l.map f = l := by
  induction l with
  | nil => rfl
  | cons c r ih =>
      rw [List.map_cons, h c (List.mem_cons_self _ _),
        ih (fun c hc => h c (List.mem_cons_of_mem _ hc))]

lemma dropWhile_eq_self_of_all {p : Nat → Bool} {l : Str} (h : ∀ c ∈ l, p c = false) :
    l.dropWhile p = l := by
  cases l with
  | nil => rfl
  | cons c r => exact List.dropWhile_cons_of_neg (by simp [h c (List.mem_cons_self _ _)])

lemma pyStrip_eq_self_of_all {l : Str} (h : ∀ c ∈ l, pyIsSpace c = false) : pyStrip l = l := by
  unfold pyStrip
  rw [dropWhile_eq_self_of_all h,
    dropWhile_eq_self_of_all (fun c hc => h c (List.mem_reverse.mp hc)), List.reverse_reverse]

lemma despace_eq_self_of_all {l : Str} (h : ∀ c ∈ l, pyIsSpace c = false) : despace l = l := by
  apply List.filter_eq_self.mpr
  intro a ha
  have := h a ha
  simp only [pyIsSpace, Bool.or_eq_false_iff, decide_eq_false_iff_not] at this
  simp only [ne_eq, decide_eq_true_eq]
  exact this.1.1.1.1.1

lemma all_cons {P : Nat → Prop} {a : Nat} {l : Str} (h1 : P a)
    (h2 : ∀ x ∈ l, P x) : ∀ x ∈ a :: l, P x := by
  intro x hx
  rcases List.mem_cons.mp hx with rfl | hx
  · exact h1
  · exact h2 x hx

lemma all_append {P : Nat → Prop} {l1 l2 : Str} (h1 : ∀ c ∈ l1, P c)
    (h2 : ∀ c ∈ l2, P c) : ∀ c ∈ l1 ++ l2, P c := by
  intro c hc
  rcases List.mem_append.mp hc with h | h
  · exact h1 c h
  · exact h2 c h

lemma isPrefixOf_append_self (p rest : Str) : p.isPrefixOf (p ++ rest) = true :=
  List.isPrefixOf_iff_prefix.mpr (List.prefix_append _ _)

/-- Characters of `lit`, or plain interface-name characters. -/
def memOr (lit : Str) (c : Nat) : Bool := decide (c ∈ lit) || plainChar c


lemma despace_dropWhile_eq {x : Str} (h : ∀ c ∈ x, pyIsSpace c = true → c = 32) :
    despace (x.dropWhile pyIsSpace) = despace x := by
  have hx : x.takeWhile pyIsSpace ++ x.dropWhile pyIsSpace = x :=
    List.takeWhile_append_dropWhile pyIsSpace x
  have htw : despace (x.takeWhile pyIsSpace) = [] := by
    apply List.filter_eq_nil_iff.mpr
    intro a ha
    have haws : pyIsSpace a = true := List.mem_takeWhile_imp ha
    have hax : a ∈ x := (List.takeWhile_prefix pyIsSpace).subset ha
    have ha32 : a = 32 := h a hax haws
    simp [ha32]
  calc despace (x.dropWhile pyIsSpace)
      = despace (x.takeWhile pyIsSpace) ++ despace (x.dropWhile pyIsSpace) := by
        rw [htw]
        rfl
    _ = despace (x.takeWhile pyIsSpace ++ x.dropWhile pyIsSpace) := by
        simp only [despace, List.filter_append]
    _ = despace x := by rw [hx]

/-- `strip` does nothing `replace(" ", "")` would not also do, provided the
only whitespace characters present are plain spaces. -/
lemma despace_strip_space_only {x : Str} (h : ∀ c ∈ x, pyIsSpace c = true → c = 32) :
    despace (pyStrip x) = despace x := by
  unfold pyStrip
  have h1 : ∀ c ∈ x.dropWhile pyIsSpace, pyIsSpace c = true → c = 32 := fun c hc =>
    h c ((List.dropWhile_sublist pyIsSpace).subset hc)
  have h2 : ∀ c ∈ (x.dropWhile pyIsSpace).reverse, pyIsSpace c = true → c = 32 := fun c hc =>
    h1 c (List.mem_reverse.mp hc)
  have hrev : despace (((x.dropWhile pyIsSpace).reverse.dropWhile pyIsSpace)).reverse
      = (despace ((x.dropWhile pyIsSpace).reverse.dropWhile pyIsSpace)).reverse := by
    simp only [despace, List.filter_reverse]
  rw [hrev, despace_dropWhile_eq h2]
  simp only [despace, List.filter_reverse, List.reverse_reverse]
  exact despace_dropWhile_eq h

/-- The canonicalization pipeline before the replacements, on any rendering:
a prefix whose lowercased, space-removed form is `lit` (and whose whitespace
characters are plain spaces), followed by a plain-character suffix, reduces to
`lit ++ rest`. -/
lemma stemCore {pre rest lit : Str}
    (hpre : despace (pyLower pre) = lit)
    (hws : ∀ c ∈ pre, pyIsSpace c = true → c = 32)
    (hrest : ∀ c ∈ rest, plainChar c = true) :
    despace (pyStrip (pyLower (pre ++ rest))) = lit ++ rest := by
  have hlow : pyLower (pre ++ rest) = pyLower pre ++ rest := by
    simp only [pyLower, List.map_append]
    rw [map_id_of_mem (fun c hc => plain_lower (hrest c hc))]
  rw [hlow]
  have hwsall : ∀ c ∈ pyLower pre ++ rest, pyIsSpace c = true → c = 32 := by
    intro c hc hcs
    rcases List.mem_append.mp hc with hcp | hcr
    · rcases List.mem_map.mp hcp with ⟨c0, hc0, rfl⟩
      by_cases hup : 65 ≤ c0 ∧ c0 ≤ 90
      · exfalso
        unfold pyLowerChar at hcs
        rw [if_pos hup] at hcs
        simp only [pyIsSpace, Bool.or_eq_true, decide_eq_true_eq] at hcs
        omega
      · unfold pyLowerChar at hcs ⊢
        rw [if_neg hup] at hcs ⊢
        exact hws c0 hc0 hcs
    · have := plain_not_space (hrest c hcr)
      rw [this] at hcs
      exact Bool.noConfusion hcs
  rw [despace_strip_space_only hwsall]
  have happ : despace (pyLower pre ++ rest) = despace (pyLower pre) ++ despace rest := by
    simp only [despace, List.filter_append]
  rw [happ, hpre, despace_eq_self_of_all (fun c hc => plain_not_space (hrest c hc))]

lemma stem_gi {pre : Str} (rest : Str)
    (hpre : despace (pyLower pre) = s2l "gigabitethernet")
    (hws : ∀ c ∈ pre, pyIsSpace c = true → c = 32)
    (hrest : ∀ c ∈ rest, plainChar c = true) :
    normStem (pre ++ rest) = s2l "gi" ++ rest := by
  have hcore := stemCore hpre hws hrest
  have r1 : pyReplace (s2l "gigabitethernet" ++ rest) (s2l "gigabitethernet") (s2l "gi")
      = s2l "gi" ++ rest := by
    rw [pyReplace_append_pat (by decide),
      pyReplace_eq_self_of_no_occur plainChar hrest (by decide)]
  have hall2 : ∀ c ∈ s2l "gi" ++ rest, memOr (s2l "gi") c = true :=
    all_append (by decide) (fun c hc => by simp [memOr, hrest c hc])
  have r2 : pyReplace (s2l "gi" ++ rest) (s2l "tengigabitethernet") (s2l "te")
      = s2l "gi" ++ rest :=
    pyReplace_eq_self_of_no_occur (memOr (s2l "gi")) hall2 (by decide)
  have r3 : pyReplace (s2l "gi" ++ rest) (s2l "fastethernet") (s2l "fa")
      = s2l "gi" ++ rest :=
    pyReplace_eq_self_of_no_occur (memOr (s2l "gi")) hall2 (by decide)
  have r4 : pyReplace (s2l "gi" ++ rest) (s2l "port-channel") (s2l "po")
      = s2l "gi" ++ rest :=
    pyReplace_eq_self_of_no_occur (memOr (s2l "gi")) hall2 (by decide)
  unfold normStem
  rw [hcore, r1, r2, r3, r4]

lemma stem_te {pre : Str} (rest : Str)
    (hpre : despace (pyLower pre) = s2l "tengigabitethernet")
    (hws : ∀ c ∈ pre, pyIsSpace c = true → c = 32)
    (hrest : ∀ c ∈ rest, plainChar c = true) :
    normStem (pre ++ rest) = s2l "tengi" ++ rest := by
  have hcore := stemCore hpre hws hrest
  have r1 : pyReplace (s2l "tengigabitethernet" ++ rest) (s2l "gigabitethernet") (s2l "gi")
      = s2l "tengi" ++ rest := by
    rw [show s2l "tengigabitethernet" ++ rest
        = 116 :: (101 :: (110 :: (s2l "gigabitethernet" ++ rest))) from rfl]
    rw [pyReplace_cons_neg _ (isPrefixOf_false_of_head 103 116 (s2l "gigabitethernet")
      (116 :: (101 :: (110 :: (s2l "gigabitethernet" ++ rest)))) rfl rfl (by decide))]
    rw [pyReplace_cons_neg _ (isPrefixOf_false_of_head 103 101 (s2l "gigabitethernet")
      (101 :: (110 :: (s2l "gigabitethernet" ++ rest))) rfl rfl (by decide))]
    rw [pyReplace_cons_neg _ (isPrefixOf_false_of_head 103 110 (s2l "gigabitethernet")
      (110 :: (s2l "gigabitethernet" ++ rest)) rfl rfl (by decide))]
    rw [pyReplace_append_pat (by decide),
      pyReplace_eq_self_of_no_occur plainChar hrest (by decide)]
    rfl
  have hall2 : ∀ c ∈ s2l "tengi" ++ rest, memOr (s2l "tengi") c = true :=
    all_append (by decide) (fun c hc => by simp [memOr, hrest c hc])
  have r2 : pyReplace (s2l "tengi" ++ rest) (s2l "tengigabitethernet") (s2l "te")
      = s2l "tengi" ++ rest :=
    pyReplace_eq_self_of_no_occur (memOr (s2l "tengi")) hall2 (by decide)
  have r3 : pyReplace (s2l "tengi" ++ rest) (s2l "fastethernet") (s2l "fa")
      = s2l "tengi" ++ rest :=
    pyReplace_eq_self_of_no_occur (memOr (s2l "tengi")) hall2 (by decide)
  have r4 : pyReplace (s2l "tengi" ++ rest) (s2l "port-channel") (s2l "po")
      = s2l "tengi" ++ rest :=
    pyReplace_eq_self_of_no_occur (memOr (s2l "tengi")) hall2 (by decide)
  unfold normStem
  rw [hcore, r1, r2, r3, r4]

lemma stem_fa {pre : Str} (rest : Str)
    (hpre : despace (pyLower pre) = s2l "fastethernet")
    (hws : ∀ c ∈ pre, pyIsSpace c = true → c = 32)
    (hrest : ∀ c ∈ rest, plainChar c = true) :
    normStem (pre ++ rest) = s2l "fa" ++ rest := by
  have hcore := stemCore hpre hws hrest
  have hall0 : ∀ c ∈ s2l "fastethernet" ++ rest, memOr (s2l "fastethernet") c = true :=
    all_append (by decide) (fun c hc => by simp [memOr, hrest c hc])
  have r1 : pyReplace (s2l "fastethernet" ++ rest) (s2l "gigabitethernet") (s2l "gi")
      = s2l "fastethernet" ++ rest :=
    pyReplace_eq_self_of_no_occur (memOr (s2l "fastethernet")) hall0 (by decide)
  have r2 : pyReplace (s2l "fastethernet" ++ rest) (s2l "tengigabitethernet") (s2l "te")
      = s2l "fastethernet" ++ rest :=
    pyReplace_eq_self_of_no_occur (memOr (s2l "fastethernet")) hall0 (by decide)
  have r3 : pyReplace (s2l "fastethernet" ++ rest) (s2l "fastethernet") (s2l "fa")
      = s2l "fa" ++ rest := by
    rw [pyReplace_append_pat (by decide),
      pyReplace_eq_self_of_no_occur plainChar hrest (by decide)]
  have hall2 : ∀ c ∈ s2l "fa" ++ rest, memOr (s2l "fa") c = true :=
    all_append (by decide) (fun c hc => by simp [memOr, hrest c hc])
  have r4 : pyReplace (s2l "fa" ++ rest) (s2l "port-channel") (s2l "po")
      = s2l "fa" ++ rest :=
    pyReplace_eq_self_of_no_occur (memOr (s2l "fa")) hall2 (by decide)
  unfold normStem
  rw [hcore, r1, r2, r3, r4]

lemma stem_po {pre : Str} (rest : Str)
    (hpre : despace (pyLower pre) = s2l "port-channel")
    (hws : ∀ c ∈ pre, pyIsSpace c = true → c = 32)
    (hrest : ∀ c ∈ rest, plainChar c = true) :
    normStem (pre ++ rest) = s2l "po" ++ rest := by
  have hcore := stemCore hpre hws hrest
  have hall0 : ∀ c ∈ s2l "port-channel" ++ rest, memOr (s2l "port-channel") c = true :=
    all_append (by decide) (fun c hc => by simp [memOr, hrest c hc])
  have r1 : pyReplace (s2l "port-channel" ++ rest) (s2l "gigabitethernet") (s2l "gi")
      = s2l "port-channel" ++ rest :=
    pyReplace_eq_self_of_no_occur (memOr (s2l "port-channel")) hall0 (by decide)
  have r2 : pyReplace (s2l "port-channel" ++ rest) (s2l "tengigabitethernet") (s2l "te")
      = s2l "port-channel" ++ rest :=
    pyReplace_eq_self_of_no_occur (memOr (s2l "port-channel")) hall0 (by decide)
  have r3 : pyReplace (s2l "port-channel" ++ rest) (s2l "fastethernet") (s2l "fa")
      = s2l "port-channel" ++ rest :=
    pyReplace_eq_self_of_no_occur (memOr (s2l "port-channel")) hall0 (by decide)
  have r4 : pyReplace (s2l "port-channel" ++ rest) (s2l "port-channel") (s2l "po")
      = s2l "po" ++ rest := by
    rw [pyReplace_append_pat (by decide),
      pyReplace_eq_self_of_no_occur plainChar hrest (by decide)]
  unfold normStem
  rw [hcore, r1, r2, r3, r4]

/-- C3 counterexample: the dedicated `tengigabitethernet` replacement is dead
code (the `gigabitethernet` replacement already fired inside it), so the
long-form TenGigabitEthernet name canonicalizes to `Tengi...`, not `Te...`;
and an unrecognized prefix returns the original string, not its
lowercased/stripped form. -/
theorem claim_C3_counterexample :
    normalize_iface_name (s2l "TenGigabitEthernet1/0/1") = s2l "Tengi1/0/1" ∧
    s2l "Tengi1/0/1" ≠ s2l "Te1/0/1" ∧
    normalize_iface_name (s2l " Vlan 10") = s2l " Vlan 10" ∧
    s2l " Vlan 10" ≠ s2l "vlan10" := by
  refine ⟨by decide, by decide, by decide, by decide⟩

/-- C3 (amended): case- and whitespace-insensitively — for any rendering of a
long-form name, that is, any prefix string whose lowercased, space-removed form
is the long-form name (whitespace being plain spaces, the only whitespace the
source's `replace(" ", "")` removes inside a name) followed by a suffix of
plain interface-name characters — `GigabitEthernet` maps to `Gi`,
`FastEthernet` to `Fa`, `Port-channel` to `Po`, but `TenGigabitEthernet` maps
to `Tengi` (the `gigabitethernet` replacement consumes its inner occurrence
first, so the dedicated rule is dead code); and a name whose processed stem
starts with none of `gi`/`te`/`fa`/`po` is returned as the original input
string, with no lowercasing or stripping applied. -/
theorem claim_C3_theorem (preGi preTe preFa prePo rest : Str)
    (hrest : ∀ c ∈ rest, plainChar c = true)
    (hGi : despace (pyLower preGi) = s2l "gigabitethernet")
    (hGiw : ∀ c ∈ preGi, pyIsSpace c = true → c = 32)
    (hTe : despace (pyLower preTe) = s2l "tengigabitethernet")
    (hTew : ∀ c ∈ preTe, pyIsSpace c = true → c = 32)
    (hFa : despace (pyLower preFa) = s2l "fastethernet")
    (hFaw : ∀ c ∈ preFa, pyIsSpace c = true → c = 32)
    (hPo : despace (pyLower prePo) = s2l "port-channel")
    (hPow : ∀ c ∈ prePo, pyIsSpace c = true → c = 32) :
    normalize_iface_name (preGi ++ rest) = s2l "Gi" ++ rest ∧
    normalize_iface_name (preTe ++ rest) = s2l "Tengi" ++ rest ∧
    normalize_iface_name (preFa ++ rest) = s2l "Fa" ++ rest ∧
    normalize_iface_name (prePo ++ rest) = s2l "Po" ++ rest ∧
    (∀ s : Str, (s2l "gi").isPrefixOf (normStem s) = false →
      (s2l "te").isPrefixOf (normStem s) = false →
      (s2l "fa").isPrefixOf (normStem s) = false →
      (s2l "po").isPrefixOf (normStem s) = false →
      normalize_iface_name s = s) := by
  refine ⟨?_, ?_, ?_, ?_, ?_⟩
  · unfold normalize_iface_name
    rw [stem_gi rest hGi hGiw hrest,
      if_pos (isPrefixOf_append_self (s2l "gi") rest)]
    rfl
  · unfold normalize_iface_name
    rw [stem_te rest hTe hTew hrest]
    rw [if_neg (by
      simp [isPrefixOf_false_of_head 103 116 (s2l "gi") (s2l "tengi" ++ rest) rfl rfl
        (by decide)])]
    rw [show s2l "tengi" ++ rest = s2l "te" ++ (s2l "ngi" ++ rest) from rfl,
      if_pos (isPrefixOf_append_self (s2l "te") (s2l "ngi" ++ rest))]
    rfl
  · unfold normalize_iface_name
    rw [stem_fa rest hFa hFaw hrest]
    rw [if_neg (by
      simp [isPrefixOf_false_of_head 103 102 (s2l "gi") (s2l "fa" ++ rest) rfl rfl
        (by decide)])]
    rw [if_neg (by
      simp [isPrefixOf_false_of_head 116 102 (s2l "te") (s2l "fa" ++ rest) rfl rfl
        (by decide)])]
    rw [if_pos (isPrefixOf_append_self (s2l "fa") rest)]
    rfl
  · unfold normalize_iface_name
    rw [stem_po rest hPo hPow hrest]
    rw [if_neg (by
      simp [isPrefixOf_false_of_head 103 112 (s2l "gi") (s2l "po" ++ rest) rfl rfl
        (by decide)])]
    rw [if_neg (by
      simp [isPrefixOf_false_of_head 116 112 (s2l "te") (s2l "po" ++ rest) rfl rfl
        (by decide)])]
    rw [if_neg (by
      simp [isPrefixOf_false_of_head 102 112 (s2l "fa") (s2l "po" ++ rest) rfl rfl
        (by decide)])]
    rw [if_pos (isPrefixOf_append_self (s2l "po") rest)]
    rfl
  · intro s hg ht hf hp
    unfold normalize_iface_name
    rw [if_neg (by simp [hg]), if_neg (by simp [ht]), if_neg (by simp [hf]),
      if_neg (by simp [hp])]

/-- Witness for C3 at mixed-case, space-bearing renderings and the suffix `1/0/1`. -/
theorem claim_C3_witness :
    ((∀ c ∈ s2l "1/0/1", plainChar c = true) ∧
     despace (pyLower (s2l "giga BIT ethernet")) = s2l "gigabitethernet" ∧
     despace (pyLower (s2l "Ten GIGABIT Ethernet")) = s2l "tengigabitethernet" ∧
     despace (pyLower (s2l "FAST ethernet")) = s2l "fastethernet" ∧
     despace (pyLower (s2l "port-CHANNEL")) = s2l "port-channel") ∧
    (normalize_iface_name (s2l "giga BIT ethernet" ++ s2l "1/0/1")
        = s2l "Gi" ++ s2l "1/0/1" ∧
     normalize_iface_name (s2l "Ten GIGABIT Ethernet" ++ s2l "1/0/1")
        = s2l "Tengi" ++ s2l "1/0/1" ∧
     normalize_iface_name (s2l "FAST ethernet" ++ s2l "1/0/1")
        = s2l "Fa" ++ s2l "1/0/1" ∧
     normalize_iface_name (s2l "port-CHANNEL" ++ s2l "1/0/1")
        = s2l "Po" ++ s2l "1/0/1" ∧
     (∀ s : Str, (s2l "gi").isPrefixOf (normStem s) = false →
       (s2l "te").isPrefixOf (normStem s) = false →
       (s2l "fa").isPrefixOf (normStem s) = false →
       (s2l "po").isPrefixOf (normStem s) = false →
       normalize_iface_name s = s)) :=
  ⟨⟨by decide, by decide, by decide, by decide, by decide⟩,
   claim_C3_theorem (s2l "giga BIT ethernet") (s2l "Ten GIGABIT Ethernet")
     (s2l "FAST ethernet") (s2l "port-CHANNEL") (s2l "1/0/1")
     (by decide) (by decide) (by decide) (by decide) (by decide) (by decide)
     (by decide) (by decide) (by decide)⟩

instance {e a : Type} [DecidableEq e] [DecidableEq a] : DecidableEq (Except e a) := fun x y =>
  match x, y with
  | .ok v, .ok w =>
      match decEq v w with
      | isTrue h => isTrue (h ▸ rfl)
      | isFalse h => isFalse (fun hc => h (Except.ok.inj hc))
  | .error v, .error w =>
      match decEq v w with
      | isTrue h => isTrue (h ▸ rfl)
      | isFalse h => isFalse (fun hc => h (Except.error.inj hc))
  | .ok _, .error _ => isFalse (fun hc => Except.noConfusion hc)
  | .error _, .ok _ => isFalse (fun hc => Except.noConfusion hc)

/-! ## Configuration parser (`parse_interface_config`) -/

/-- `str.splitlines()` for the line boundaries in scope
(`\n`, `\r\n`, `\r`, vertical tab, form feed). -/
def pySplitlines : Str → List Str
  | [] => []
  | 13 :: 10 :: rest => [] :: pySplitlines rest
  | c :: rest =>
    if c = 10 || c = 13 || c = 11 || c = 12 then [] :: pySplitlines rest
    else
      match pySplitlines rest with
      | [] => [[c]]
      | h :: t => (c :: h) :: t

/-- `str.split(sep)` for a one-character separator: keeps empty segments. -/
def splitOnC (sep : Nat) : Str → List Str
  | [] => [[]]
  | c :: rest =>
    if c = sep then [] :: splitOnC sep rest
    else
      match splitOnC sep rest with
      | [] => [[c]]
      | h :: t => (c :: h) :: t

/-- `"\n".join(lines)`. -/
def joinNL (ls : List Str) : Str := List.intercalate [10] ls

def isDigitC (c : Nat) : Bool := 48 ≤ c && c ≤ 57

/-- Regex word characters (`\w` over the ASCII inputs in scope). -/
def isWordChar (c : Nat) : Bool :=
  isDigitC c || (65 ≤ c && c ≤ 90) || (97 ≤ c && c ≤ 122) || c = 95

/-- Value of a digit string. -/
def digitsVal (s : Str) : Nat := s.foldl (fun a c => a * 10 + (c - 48)) 0

/-- A non-empty all-digit string: what Python `int` accepts among the strings
fed to it here (digits and hyphens only). -/
def okNum (s : Str) : Bool := !s.isEmpty && s.all isDigitC

/-- Python `int(s)` for the strings fed to it here. -/
def pyInt (s : Str) : Except Unit Nat :=
  if okNum s then .ok (digitsVal s) else .error ()

/-- A line matched against `^\s*LIT...`: the remainder after optional leading
white space and the literal. -/
def lineWsRest (lit line : Str) : Option Str := dropPfx lit (line.dropWhile pyIsSpace)

/-- First line producing a value — the leftmost match of a `^\s*...` MULTILINE search. -/
def firstSome {α : Type} (f : Str → Option α) : List Str → Option α
  | [] => none
  | L :: rest =>
    match f L with
    | some x => some x
    | none => firstSome f rest

/-- A line matching `^\s*LIT\s*$`. -/
def exactLine (lit line : Str) : Bool :=
  match lineWsRest lit line with
  | some r => r.all pyIsSpace
  | none => false

/-- A line matching `^\s*shutdown\b`. -/
def shutdownLine (line : Str) : Bool :=
  match dropPfx (s2l "shutdown") (line.dropWhile pyIsSpace) with
  | some [] => true
  | some (c :: _) => !(isWordChar c)
  | none => false

/-- `re.search(r"^\s*shutdown\b", block, re.MULTILINE)`: the regex module splits
positions at `\n` only. -/
def shutdownIn (block : Str) : Bool := (splitOnC 10 block).any shutdownLine

/-- `^\s*description (.*)` — first match, captured remainder stripped. -/
def descOf (lines : List Str) : Option Str :=
  firstSome (fun L => (lineWsRest (s2l "description ") L).map pyStrip) lines

/-- A `^\s*LIT(\d+)` capture on one line. -/
def capDigits (lit : Str) (L : Str) : Option Str :=
  match lineWsRest lit L with
  | some r => if (r.takeWhile isDigitC) = [] then none else some (r.takeWhile isDigitC)
  | none => none

/-- `^\s*switchport voice vlan (\d+)` — capture kept as a string by the source. -/
def voiceOf (lines : List Str) : Option Str :=
  firstSome (capDigits (s2l "switchport voice vlan ")) lines

/-- `^\s*channel-group (\d+) mode` — capture kept as a string by the source. -/
def channelOf (lines : List Str) : Option Str :=
  firstSome (fun L =>
    match lineWsRest (s2l "channel-group ") L with
    | some r =>
        if (r.takeWhile isDigitC) ≠ [] ∧ (s2l " mode").isPrefixOf (r.dropWhile isDigitC) then
          some (r.takeWhile isDigitC)
        else none
    | none => none) lines

/-- `^\s*LIT(\d+)` — first match, converted with `int`. -/
def natCapOf (lit : Str) (lines : List Str) : Option Nat :=
  (firstSome (capDigits lit) lines).map digitsVal

/-- Unanchored substring search (`re.search(pat, s)` / `pat in s` for a literal). -/
def containsSub (pat : Str) : Str → Bool
  | [] => pat.isEmpty
  | c :: rest => pat.isPrefixOf (c :: rest) || containsSub pat rest

/-- Mode determination of `parse_interface_config`: anchored full-line checks for
the two explicit mode commands, then plain substring checks on the block body. -/
def modeOf (lines : List Str) (cfg : Str) : PMode :=
  if lines.any (exactLine (s2l "switchport mode trunk")) then PMode.trunk
  else if lines.any (exactLine (s2l "switchport mode access")) then PMode.access
  else if containsSub (s2l "switchport trunk allowed vlan") cfg then PMode.trunk
  else if containsSub (s2l "switchport access vlan") cfg then PMode.access
  else PMode.access

def isVlanChar (c : Nat) : Bool := isDigitC c || c = 44 || c = 45

/-- One attempted match of `switchport trunk allowed vlan (?:add )?([\d,-]+)` at
the head of `l`: the captured token list and the remainder after the match. -/
def matchAllowedAt (l : Str) : Option (Str × Str) :=
  match dropPfx (s2l "switchport trunk allowed vlan ") l with
  | none => none
  | some r =>
    match dropPfx (s2l "add ") r with
    | some r2 =>
        if (r2.takeWhile isVlanChar) = [] then
          if (r.takeWhile isVlanChar) = [] then none
          else some (r.takeWhile isVlanChar, r.dropWhile isVlanChar)
        else some (r2.takeWhile isVlanChar, r2.dropWhile isVlanChar)
    | none =>
        if (r.takeWhile isVlanChar) = [] then none
        else some (r.takeWhile isVlanChar, r.dropWhile isVlanChar)

lemma length_dropWhile_le (p : Nat → Bool) (l : Str) :
    (l.dropWhile p).length ≤ l.length :=
  (List.dropWhile_sublist p).length_le

lemma dropPfx_some_length {p l r : Str} (h : dropPfx p l = some r) :
    p.length + r.length = l.length := by
  induction p generalizing l with
  | nil =>
      obtain rfl : l = r := by simpa [dropPfx] using h
      simp
  | cons a as ih =>
      cases l with
      | nil => exact absurd h (by simp [dropPfx])
      | cons b bs =>
          unfold dropPfx at h
          split at h
          · have := ih h
            simp only [List.length_cons]
            omega
          · exact absurd h (by simp)

lemma matchAllowedAt_after_le {c : Nat} {rest cap after : Str}
    (h : matchAllowedAt (c :: rest) = some (cap, after)) : after.length ≤ rest.length := by
  unfold matchAllowedAt at h
  split at h
  · exact absurd h (by simp)
  · next r hr =>
      have hrlen := dropPfx_some_length hr
      simp only [List.length_cons] at hrlen
      split at h
      · next r2 hr2 =>
          have hr2len := dropPfx_some_length hr2
          split at h
          · split at h
            · exact absurd h (by simp)
            · obtain ⟨rfl, rfl⟩ : cap = r.takeWhile isVlanChar ∧ after = r.dropWhile isVlanChar :=
                ⟨(Prod.mk.injEq _ _ _ _ ▸ Option.some.inj h).1.symm,
                 (Prod.mk.injEq _ _ _ _ ▸ Option.some.inj h).2.symm⟩
              have := length_dropWhile_le isVlanChar r
              simp [s2l] at hrlen
              omega
          · obtain ⟨rfl, rfl⟩ : cap = r2.takeWhile isVlanChar ∧ after = r2.dropWhile isVlanChar :=
              ⟨(Prod.mk.injEq _ _ _ _ ▸ Option.some.inj h).1.symm,
               (Prod.mk.injEq _ _ _ _ ▸ Option.some.inj h).2.symm⟩
            have h1 := length_dropWhile_le isVlanChar r2
            simp [s2l] at hrlen hr2len
            omega
      · split at h
        · exact absurd h (by simp)
        · obtain ⟨rfl, rfl⟩ : cap = r.takeWhile isVlanChar ∧ after = r.dropWhile isVlanChar :=
            ⟨(Prod.mk.injEq _ _ _ _ ▸ Option.some.inj h).1.symm,
             (Prod.mk.injEq _ _ _ _ ▸ Option.some.inj h).2.symm⟩
          have := length_dropWhile_le isVlanChar r
          simp [s2l] at hrlen
          omega

/-- `re.findall` of the allowed-VLAN pattern: scan left to right, emit each
non-overlapping match's capture, resume after the match. -/
def findAllowedFuel : Nat → Str → List Str
  | 0, _ => []
  | _ + 1, [] => []
  | fuel + 1, c :: rest =>
    match matchAllowedAt (c :: rest) with
    | some (cap, after) => cap :: findAllowedFuel fuel after
    | none => findAllowedFuel fuel rest

def findAllowed (s : Str) : List Str := findAllowedFuel s.length s

/-- `range(start, end + 1)` as a list. -/
def rangeIncl (s e : Nat) : List Nat := List.range' s (e + 1 - s)

/-- One token of an allowed-VLAN list: a plain number, or `A-B` expanded
inclusively; `int` failures and bad unpacking raise. -/
def expandPart (part : Str) : Except Unit (List Nat) :=
  if part.contains 45 then
    match splitOnC 45 part with
    | [a, b] =>
        match pyInt a, pyInt b with
        | .ok x, .ok y => .ok (rangeIncl x y)
        | .error e, _ => .error e
        | _, .error e => .error e
    | _ => .error ()
  else
    match pyInt part with
    | .ok v => .ok [v]
    | .error e => .error e

/-- All tokens of one captured list, in order. -/
def expandParts : List Str → Except Unit (List Nat)
  | [] => .ok []
  | p :: ps =>
      match expandPart p, expandParts ps with
      | .ok v, .ok rest => .ok (v ++ rest)
      | .error e, _ => .error e
      | _, .error e => .error e

/-- `vlan_list` accumulated over every captured directive. -/
def expandAll : List Str → Except Unit (List Nat)
  | [] => .ok []
  | m :: ms =>
      match expandParts (splitOnC 44 m), expandAll ms with
      | .ok v, .ok rest => .ok (v ++ rest)
      | .error e, _ => .error e
      | _, .error e => .error e

/-- Insert into an ascending duplicate-free list. -/
def insertSorted (v : Nat) : List Nat → List Nat
  | [] => [v]
  | h :: t => if v < h then v :: h :: t else if v = h then h :: t else h :: insertSorted v t

/-- `sorted(list(set(l)))`. -/
def sortDedup (l : List Nat) : List Nat := l.foldl (fun acc v => insertSorted v acc) []

/-- The `allowed_vlans` value stored for a trunk block: the sorted deduplicated
list when some VLANs were collected, the `ALL` sentinel when no directive
matched, no key when directives matched but produced no VLAN. -/
def allowedOf (cfg : Str) : Except Unit (Option AllowedVlans) :=
  match expandAll (findAllowed cfg) with
  | .error e => .error e
  | .ok vl =>
      .ok (if vl ≠ [] then some (AllowedVlans.listed (sortDedup vl))
           else if findAllowed cfg = [] then some AllowedVlans.all
           else none)

/-- `lines[0].replace("interface ", "").strip()` then name normalization. -/
def blockName (l0 : Str) : Str :=
  normalize_iface_name (pyStrip (pyReplace l0 (s2l "interface ") []))

/-- The descriptor fields set for every interface block, before the mode branch. -/
def basePI (block l0 : Str) (restLines : List Str) : ParsedInterface :=
  { enabled := some (!shutdownIn block)
    description := descOf restLines
    voice_vlan := voiceOf restLines
    channel_group := channelOf restLines
    mode := some (modeOf restLines (joinNL restLines))
    is_port_channel_parent := (s2l "po").isPrefixOf (pyLower (blockName l0)) }

/-- One `config_blocks` element of `parse_interface_config`: `none` when the
block is skipped, the interface name and its descriptor otherwise. -/
def parseBlock (block : Str) : Except Unit (Option (Str × ParsedInterface)) :=
  match pySplitlines (pyStrip block) with
  | [] => .ok none
  | l0 :: restLines =>
    if (s2l "interface ").isPrefixOf (pyLower l0) then
      match modeOf restLines (joinNL restLines) with
      | PMode.trunk =>
          match allowedOf (joinNL restLines) with
          | .error e => .error e
          | .ok av =>
              .ok (some (blockName l0,
                { basePI block l0 restLines with
                    native_vlan := natCapOf (s2l "switchport trunk native vlan ") restLines
                    allowed_vlans := av }))
      | PMode.access =>
          .ok (some (blockName l0,
            { basePI block l0 restLines with
                access_vlan := natCapOf (s2l "switchport access vlan ") restLines }))
    else .ok none

/-- `interfaces[if_name] = ...`: overwrite an existing key in place, else append. -/
def upsert (m : List (Str × ParsedInterface)) (n : Str) (d : ParsedInterface) :
    List (Str × ParsedInterface) :=
  if m.any (fun p => p.1 = n) then m.map (fun p => if p.1 = n then (n, d) else p)
  else m ++ [(n, d)]

def parseGo : List Str → List (Str × ParsedInterface) →
    Except Unit (List (Str × ParsedInterface))
  | [], acc => .ok acc
  | b :: bs, acc =>
      match parseBlock b with
      | .error e => .error e
      | .ok none => parseGo bs acc
      | .ok (some (n, d)) => parseGo bs (upsert acc n d)

/-- `parse_interface_config(config_text)`: split on `'!'` and fold the blocks
into the interface dictionary; a raised exception is an `error` value. -/
def parse_interface_config (text : Str) : Except Unit (List (Str × ParsedInterface)) :=
  parseGo (splitOnC 33 text) []

example :
    parse_interface_config
        (s2l "interface Gi1/0/1\n switchport mode access\n switchport access vlan 20\n shutdown\n!") =
      .ok [(s2l "Gi1/0/1",
        { enabled := some false, mode := some PMode.access, access_vlan := some 20 })] := by
  decide

example :
    parse_interface_config
        (s2l "junk line\n!\ninterface Gi2\n description up link A\n switchport trunk allowed vlan 10,12-14\n switchport trunk native vlan 99\n") =
      .ok [(s2l "Gi2",
        { enabled := some true, description := some (s2l "up link A"),
          mode := some PMode.trunk, native_vlan := some 99,
          allowed_vlans := some (AllowedVlans.listed [10, 12, 13, 14]) })] := by
  decide

example :
    parse_interface_config (s2l "interface Gi1\nswitchport trunk allowed vlan 1-2-3") =
      .error () := by decide

example :
    parse_interface_config (s2l "interface Gi1\nswitchport trunk allowed vlan ,") =
      .error () := by decide

/-! ## The parser's only failure mode (C2) -/

/-- `Except` success flag. -/
def exOk {α : Type} : Except Unit α → Bool
  | .ok _ => true
  | .error _ => false

/-- The body lines of a block, joined — the `config_str` the regexes scan. -/
def cfgOf (b : Str) : Str := joinNL (pySplitlines (pyStrip b)).tail

/-- A token of an allowed-VLAN list that `int`/unpacking accept: a non-empty
digit string, or exactly two non-empty digit strings joined by one hyphen. -/
def wellFormedVlanToken (p : Str) : Bool :=
  match splitOnC 45 p with
  | [a] => okNum a
  | [a, b] => okNum a && okNum b
  | _ => false

lemma pyInt_ok {s : Str} (h : okNum s = true) : pyInt s = .ok (digitsVal s) := by
  unfold pyInt
  rw [if_pos h]

lemma pyInt_err {s : Str} (h : okNum s = false) : pyInt s = .error () := by
  unfold pyInt
  have hn : ¬ (okNum s = true) := by
    rw [h]
    simp
  rw [if_neg hn]

lemma splitOnC_ne_nil (sep : Nat) (l : Str) : splitOnC sep l ≠ [] := by
  cases l with
  | nil => simp [splitOnC]
  | cons c rest =>
      unfold splitOnC
      split
      · simp
      · split <;> simp

lemma splitOnC_not_contains {sep : Nat} {l : Str} (h : l.contains sep = false) :
    splitOnC sep l = [l] := by
  induction l with
  | nil => rfl
  | cons c rest ih =>
      simp only [List.contains_cons, Bool.or_eq_false_iff] at h
      have hc : c ≠ sep := by
        intro hcc
        subst hcc
        simp at h
      unfold splitOnC
      rw [if_neg hc, ih h.2]

lemma splitOnC_contains_len {sep : Nat} {l : Str} (h : l.contains sep = true) :
    2 ≤ (splitOnC sep l).length := by
  induction l with
  | nil => simp [List.contains] at h
  | cons c rest ih =>
      unfold splitOnC
      by_cases hc : c = sep
      · rw [if_pos hc]
        cases hr : splitOnC sep rest with
        | nil => exact absurd hr (splitOnC_ne_nil sep rest)
        | cons a t => simp
      · rw [if_neg hc]
        simp only [List.contains_cons, Bool.or_eq_true] at h
        rcases h with h | h
        · have hsc : sep = c := by simpa using h
          exact absurd hsc.symm hc
        · have h2 := ih h
          cases hr : splitOnC sep rest with
          | nil => exact absurd hr (splitOnC_ne_nil sep rest)
          | cons a t =>
              rw [hr] at h2
              simpa using h2

lemma wellFormedVlanToken_iff (p : Str) :
    wellFormedVlanToken p = true ↔ exOk (expandPart p) = true := by
  unfold wellFormedVlanToken expandPart
  by_cases hc : p.contains 45 = true
  · rw [if_pos hc]
    rcases hsp : splitOnC 45 p with _ | ⟨a, _ | ⟨b, _ | t⟩⟩
    · exact absurd hsp (splitOnC_ne_nil 45 p)
    · have hlen := splitOnC_contains_len hc
      rw [hsp] at hlen
      simp at hlen
    · show (okNum a && okNum b) = true ↔
        exOk (match pyInt a, pyInt b with
          | Except.ok x, Except.ok y => Except.ok (rangeIncl x y)
          | Except.error e, _ => Except.error e
          | _, Except.error e => Except.error e) = true
      by_cases hA : okNum a = true
      · by_cases hB : okNum b = true
        · rw [pyInt_ok hA, pyInt_ok hB]
          simp [exOk, hA, hB]
        · have hB' : okNum b = false := by simpa using hB
          rw [pyInt_ok hA, pyInt_err hB']
          simp [exOk, hA, hB']
      · have hA' : okNum a = false := by simpa using hA
        rw [pyInt_err hA']
        simp [exOk, hA']
    · simp [exOk]
  · have hc' : p.contains 45 = false := by
      revert hc
      cases p.contains 45 <;> simp
    rw [if_neg (by rw [hc']; simp), splitOnC_not_contains hc']
    by_cases hP : okNum p = true
    · rw [pyInt_ok hP]
      simp [exOk, hP]
    · rw [pyInt_err (by revert hP; cases okNum p <;> simp)]
      simp [exOk, hP]

lemma expandParts_ok {ps : List Str}
    (h : ∀ p ∈ ps, wellFormedVlanToken p = true) : exOk (expandParts ps) = true := by
  induction ps with
  | nil => rfl
  | cons p ps ih =>
      have h1 : exOk (expandPart p) = true :=
        (wellFormedVlanToken_iff p).mp (h p (List.mem_cons_self _ _))
      have h2 := ih (fun q hq => h q (List.mem_cons_of_mem _ hq))
      unfold expandParts
      rcases hx : expandPart p with e | v
      · rw [hx] at h1
        exact absurd h1 (by simp [exOk])
      · rcases hy : expandParts ps with e | rest
        · rw [hy] at h2
          exact absurd h2 (by simp [exOk])
        · rfl

lemma expandAll_ok {ms : List Str}
    (h : ∀ m ∈ ms, ∀ p ∈ splitOnC 44 m, wellFormedVlanToken p = true) :
    exOk (expandAll ms) = true := by
  induction ms with
  | nil => rfl
  | cons m ms ih =>
      have h1 := expandParts_ok (h m (List.mem_cons_self _ _))
      have h2 := ih (fun x hx => h x (List.mem_cons_of_mem _ hx))
      unfold expandAll
      rcases hx : expandParts (splitOnC 44 m) with e | v
      · rw [hx] at h1
        exact absurd h1 (by simp [exOk])
      · rcases hy : expandAll ms with e | rest
        · rw [hy] at h2
          exact absurd h2 (by simp [exOk])
        · rfl

lemma allowedOf_ok {cfg : Str}
    (h : ∀ m ∈ findAllowed cfg, ∀ p ∈ splitOnC 44 m, wellFormedVlanToken p = true) :
    exOk (allowedOf cfg) = true := by
  unfold allowedOf
  rcases hx : expandAll (findAllowed cfg) with e | vl
  · have := expandAll_ok h
    rw [hx] at this
    exact absurd this (by simp [exOk])
  · rfl

lemma parseBlock_ok {b : Str}
    (h : ∀ m ∈ findAllowed (cfgOf b), ∀ p ∈ splitOnC 44 m, wellFormedVlanToken p = true) :
    exOk (parseBlock b) = true := by
  unfold parseBlock
  split
  · rfl
  · next l0 restLines hls =>
      have hcfg : cfgOf b = joinNL restLines := by
        unfold cfgOf
        rw [hls, List.tail_cons]
      split
      · split
        · split
          · next e heq =>
              rw [hcfg] at h
              have := allowedOf_ok h
              rw [heq] at this
              exact absurd this (by simp [exOk])
          · rfl
        · rfl
      · rfl

lemma parseGo_ok {bs : List Str} (h : ∀ b ∈ bs, exOk (parseBlock b) = true) :
    ∀ acc, exOk (parseGo bs acc) = true := by
  induction bs with
  | nil => intro acc; rfl
  | cons b bs ih =>
      intro acc
      have h1 := h b (List.mem_cons_self _ _)
      unfold parseGo
      rcases hx : parseBlock b with e | v
      · rw [hx] at h1
        exact absurd h1 (by simp [exOk])
      · cases v with
        | none => exact ih (fun x hx' => h x (List.mem_cons_of_mem _ hx')) acc
        | some nd => exact ih (fun x hx' => h x (List.mem_cons_of_mem _ hx')) _

/-- C2 counterexample: the claim says the parser returns a mapping without
raising for every input, but a malformed VLAN token such as `1-2-3`, or a bare
comma after the directive, raises `ValueError` out of `parse_interface_config`. -/
theorem claim_C2_counterexample :
    parse_interface_config (s2l "interface Gi1\nswitchport trunk allowed vlan 1-2-3") =
      .error () ∧
    parse_interface_config (s2l "interface Gi1\nswitchport trunk allowed vlan ,") =
      .error () :=
  ⟨by decide, by decide⟩

/-- C2 (amended): the only failure mode of `parse_interface_config` is a
malformed token in a captured `switchport trunk allowed vlan` list (an empty
token, or one that is not a plain number or a two-endpoint range); when every
captured token of every block is well formed, the parser succeeds, and blocks
that are unparsable in any other way are skipped with no entry produced. -/
theorem claim_C2_theorem (text : Str)
    (h : ∀ b ∈ splitOnC 33 text, ∀ m ∈ findAllowed (cfgOf b),
        ∀ p ∈ splitOnC 44 m, wellFormedVlanToken p = true) :
    exOk (parse_interface_config text) = true := by
  unfold parse_interface_config
  exact parseGo_ok (fun b hb => parseBlock_ok (h b hb)) []

/-- Witness for C2 on a text with a discarded garbage block, a trunk block and a
trailing non-interface block. -/
theorem claim_C2_witness :
    (∀ b ∈ splitOnC 33 (s2l "garbage\n!\ninterface Gi1\n switchport trunk allowed vlan 10,12-14\n!\nrouter bgp 65000"),
      ∀ m ∈ findAllowed (cfgOf b), ∀ p ∈ splitOnC 44 m, wellFormedVlanToken p = true) ∧
    exOk (parse_interface_config
      (s2l "garbage\n!\ninterface Gi1\n switchport trunk allowed vlan 10,12-14\n!\nrouter bgp 65000")) = true :=
  ⟨by decide,
   claim_C2_theorem
     (s2l "garbage\n!\ninterface Gi1\n switchport trunk allowed vlan 10,12-14\n!\nrouter bgp 65000")
     (by decide)⟩

/-! ## Mode determination (C4) -/

/-- The body lines of a block (everything after the `interface` line). -/
def linesTail (b : Str) : List Str := (pySplitlines (pyStrip b)).tail

lemma parseBlock_mode {b n : Str} {d : ParsedInterface}
    (h : parseBlock b = .ok (some (n, d))) :
    d.mode = some (modeOf (linesTail b) (cfgOf b)) := by
  unfold parseBlock at h
  split at h
  · exact absurd (Except.ok.inj h) (by simp)
  · next l0 restLines hls =>
      have ht : linesTail b = restLines := by
        unfold linesTail
        rw [hls, List.tail_cons]
      have hc : cfgOf b = joinNL restLines := by
        unfold cfgOf
        rw [hls, List.tail_cons]
      rw [ht, hc]
      split at h
      · split at h
        · split at h
          · exact absurd h (by simp)
          · obtain ⟨hn, hd⟩ := Prod.mk.inj (Option.some.inj (Except.ok.inj h))
            rw [← hd]
            rfl
        · obtain ⟨hn, hd⟩ := Prod.mk.inj (Option.some.inj (Except.ok.inj h))
          rw [← hd]
          rfl
      · exact absurd (Except.ok.inj h) (by simp)

/-- C4 counterexample: rules three and four are plain substring searches over
the whole block body, so a description line mentioning
`switchport trunk allowed vlan` makes the mode trunk even though no switchport
directive exists — the claim's "lines that are not directives do not
participate" is false on the code. -/
theorem claim_C4_counterexample :
    parse_interface_config
        (s2l "interface Gi1\n description see switchport trunk allowed vlan docs") =
      .ok [(s2l "Gi1",
        { enabled := some true,
          description := some (s2l "see switchport trunk allowed vlan docs"),
          mode := some PMode.trunk, allowed_vlans := some AllowedVlans.all })] ∧
    (PMode.trunk ≠ PMode.access) :=
  ⟨by decide, by decide⟩

/-- C4 (amended): the parsed mode is determined first-match-wins in the source's
priority order — an anchored whole-line `switchport mode trunk` gives trunk,
else an anchored whole-line `switchport mode access` gives access, else the
presence of the substring `switchport trunk allowed vlan` anywhere in the block
body (including inside description or other non-directive text) gives trunk,
else the substring `switchport access vlan` gives access, else access. -/
theorem claim_C4_theorem (b n : Str) (d : ParsedInterface)
    (h : parseBlock b = .ok (some (n, d))) :
    (d.mode = some PMode.trunk ↔
      ((linesTail b).any (exactLine (s2l "switchport mode trunk")) = true ∨
        ((linesTail b).any (exactLine (s2l "switchport mode access")) = false ∧
          containsSub (s2l "switchport trunk allowed vlan") (cfgOf b) = true))) ∧
    (d.mode = some PMode.access ↔
      ¬ ((linesTail b).any (exactLine (s2l "switchport mode trunk")) = true ∨
        ((linesTail b).any (exactLine (s2l "switchport mode access")) = false ∧
          containsSub (s2l "switchport trunk allowed vlan") (cfgOf b) = true))) := by
  rw [parseBlock_mode h]
  unfold modeOf
  by_cases e1 : (linesTail b).any (exactLine (s2l "switchport mode trunk")) = true
  · simp [e1]
  · by_cases e2 : (linesTail b).any (exactLine (s2l "switchport mode access")) = true
    · simp [e1, e2]
    · by_cases e3 : containsSub (s2l "switchport trunk allowed vlan") (cfgOf b) = true
      · simp [e1, e2, e3]
      · by_cases e4 : containsSub (s2l "switchport access vlan") (cfgOf b) = true
        · simp [e1, e2, e3, e4]
        · simp [e1, e2, e3, e4]

/-- Witness for C4 on a block with an explicit trunk mode line. -/
theorem claim_C4_witness :
    parseBlock (s2l "interface Gi2\n switchport mode trunk") =
      .ok (some (s2l "Gi2",
        { enabled := some true, mode := some PMode.trunk,
          allowed_vlans := some AllowedVlans.all })) ∧
    ((({ enabled := some true, mode := some PMode.trunk,
          allowed_vlans := some AllowedVlans.all } : ParsedInterface).mode = some PMode.trunk ↔
      ((linesTail (s2l "interface Gi2\n switchport mode trunk")).any
          (exactLine (s2l "switchport mode trunk")) = true ∨
        ((linesTail (s2l "interface Gi2\n switchport mode trunk")).any
            (exactLine (s2l "switchport mode access")) = false ∧
          containsSub (s2l "switchport trunk allowed vlan")
            (cfgOf (s2l "interface Gi2\n switchport mode trunk")) = true))) ∧
     (({ enabled := some true, mode := some PMode.trunk,
          allowed_vlans := some AllowedVlans.all } : ParsedInterface).mode = some PMode.access ↔
      ¬ ((linesTail (s2l "interface Gi2\n switchport mode trunk")).any
          (exactLine (s2l "switchport mode trunk")) = true ∨
        ((linesTail (s2l "interface Gi2\n switchport mode trunk")).any
            (exactLine (s2l "switchport mode access")) = false ∧
          containsSub (s2l "switchport trunk allowed vlan")
            (cfgOf (s2l "interface Gi2\n switchport mode trunk")) = true)))) :=
  ⟨by decide,
   claim_C4_theorem (s2l "interface Gi2\n switchport mode trunk") (s2l "Gi2")
     { enabled := some true, mode := some PMode.trunk,
       allowed_vlans := some AllowedVlans.all } (by decide)⟩

/-! ## Allowed-VLAN collection for trunk blocks (C8) -/

lemma insertSorted_mem (v a : Nat) (l : List Nat) :
    a ∈ insertSorted v l ↔ a = v ∨ a ∈ l := by
  induction l with
  | nil => simp [insertSorted]
  | cons hd t ih =>
      unfold insertSorted
      by_cases h1 : v < hd
      · rw [if_pos h1]
        simp [List.mem_cons]
      · rw [if_neg h1]
        by_cases h2 : v = hd
        · rw [if_pos h2]
          subst h2
          simp [List.mem_cons]
        · rw [if_neg h2]
          simp only [List.mem_cons, ih]
          tauto

lemma insertSorted_sorted (v : Nat) {l : List Nat} (h : l.Sorted (· < ·)) :
    (insertSorted v l).Sorted (· < ·) := by
  induction l with
  | nil => simp [insertSorted]
  | cons hd t ih =>
      rw [List.sorted_cons] at h
      obtain ⟨h1, h2⟩ := h
      unfold insertSorted
      by_cases hv1 : v < hd
      · rw [if_pos hv1]
        refine List.sorted_cons.mpr ⟨?_, List.sorted_cons.mpr ⟨h1, h2⟩⟩
        intro b hb
        rcases List.mem_cons.mp hb with rfl | hb
        · exact hv1
        · exact lt_trans hv1 (h1 b hb)
      · rw [if_neg hv1]
        by_cases hv2 : v = hd
        · rw [if_pos hv2]
          exact List.sorted_cons.mpr ⟨h1, h2⟩
        · rw [if_neg hv2]
          have hlt : hd < v := by omega
          refine List.sorted_cons.mpr ⟨?_, ih h2⟩
          intro b hb
          rcases (insertSorted_mem v b t).mp hb with rfl | hb
          · exact hlt
          · exact h1 b hb

lemma sortDedup_go_sorted (l : List Nat) :
    ∀ acc : List Nat, acc.Sorted (· < ·) →
      (l.foldl (fun acc v => insertSorted v acc) acc).Sorted (· < ·) := by
  induction l with
  | nil => intro acc h; exact h
  | cons v t ih =>
      intro acc h
      rw [List.foldl_cons]
      exact ih _ (insertSorted_sorted v h)

lemma sortDedup_go_mem (l : List Nat) :
    ∀ (acc : List Nat) (a : Nat),
      a ∈ l.foldl (fun acc v => insertSorted v acc) acc ↔ a ∈ acc ∨ a ∈ l := by
  induction l with
  | nil => intro acc a; simp
  | cons v t ih =>
      intro acc a
      rw [List.foldl_cons, ih, insertSorted_mem]
      simp [List.mem_cons]
      tauto

lemma sortDedup_sorted (l : List Nat) : (sortDedup l).Sorted (· < ·) :=
  sortDedup_go_sorted l [] (by simp)

lemma sortDedup_mem (l : List Nat) (a : Nat) : a ∈ sortDedup l ↔ a ∈ l := by
  unfold sortDedup
  rw [sortDedup_go_mem]
  simp

/-- What one captured token denotes, stated from the claim's words: a plain
number denotes itself, an `A-B` range denotes every number from `A` to `B`
inclusive. -/
def tokenDenotes (p : Str) (v : Nat) : Prop :=
  (p.contains 45 = false ∧ pyInt p = .ok v) ∨
  (∃ a b x y, splitOnC 45 p = [a, b] ∧ pyInt a = .ok x ∧ pyInt b = .ok y ∧ x ≤ v ∧ v ≤ y)

lemma mem_rangeIncl (v s e : Nat) : v ∈ rangeIncl s e ↔ s ≤ v ∧ v ≤ e := by
  unfold rangeIncl
  rw [List.mem_range'_1]
  omega

lemma expandPart_mem {p : Str} {vs : List Nat} (h : expandPart p = .ok vs) (v : Nat) :
    v ∈ vs ↔ tokenDenotes p v := by
  unfold expandPart at h
  by_cases hc : p.contains 45 = true
  · rw [if_pos hc] at h
    rcases hsp : splitOnC 45 p with _ | ⟨a, _ | ⟨b, _ | t⟩⟩ <;> rw [hsp] at h
    · exact absurd hsp (splitOnC_ne_nil 45 p)
    · exact Except.noConfusion h
    · have h' : (match pyInt a, pyInt b with
          | Except.ok x, Except.ok y => Except.ok (rangeIncl x y)
          | Except.error e, _ => (Except.error e : Except Unit (List Nat))
          | _, Except.error e => Except.error e) = .ok vs := h
      rcases hA : pyInt a with eA | x <;> rw [hA] at h'
      · rcases hB : pyInt b with eB | y <;> rw [hB] at h' <;> exact Except.noConfusion h'
      · rcases hB : pyInt b with eB | y <;> rw [hB] at h'
        · exact Except.noConfusion h'
        · obtain rfl : rangeIncl x y = vs := Except.ok.inj h'
          rw [mem_rangeIncl]
          constructor
          · intro hb
            exact Or.inr ⟨a, b, x, y, hsp, hA, hB, hb.1, hb.2⟩
          · rintro (⟨hcf, _⟩ | ⟨a', b', x', y', hsp', hA', hB', hle1, hle2⟩)
            · rw [hc] at hcf
              exact Bool.noConfusion hcf
            · rw [hsp] at hsp'
              have hinj := List.cons.inj hsp'
              obtain rfl : a = a' := hinj.1
              obtain rfl : b = b' := (List.cons.inj hinj.2).1
              rw [hA] at hA'
              rw [hB] at hB'
              obtain rfl : x = x' := Except.ok.inj hA'
              obtain rfl : y = y' := Except.ok.inj hB'
              exact ⟨hle1, hle2⟩
    · exact Except.noConfusion h
  · have hc' : p.contains 45 = false := by
      revert hc
      cases p.contains 45 <;> simp
    rw [if_neg (by rw [hc']; simp)] at h
    rcases hP : pyInt p with e | w <;> rw [hP] at h
    · exact Except.noConfusion h
    · obtain rfl : [w] = vs := Except.ok.inj h
      constructor
      · intro hv
        obtain rfl : v = w := by simpa using hv
        exact Or.inl ⟨hc', hP⟩
      · rintro (⟨_, hPv⟩ | ⟨a', b', x', y', hsp', _, _, _, _⟩)
        · rw [hP] at hPv
          obtain rfl : w = v := Except.ok.inj hPv
          simp
        · rw [splitOnC_not_contains hc'] at hsp'
          exact absurd (congrArg List.length hsp') (by simp)

lemma expandParts_mem {ps : List Str} {vl : List Nat} (h : expandParts ps = .ok vl) (v : Nat) :
    v ∈ vl ↔ ∃ p ∈ ps, tokenDenotes p v := by
  induction ps generalizing vl with
  | nil =>
      obtain rfl : ([] : List Nat) = vl := Except.ok.inj h
      simp
  | cons p ps ih =>
      unfold expandParts at h
      rcases hx : expandPart p with e | vp <;> rw [hx] at h
      · rcases hy : expandParts ps with e2 | rest <;> rw [hy] at h <;> exact Except.noConfusion h
      · rcases hy : expandParts ps with e | rest <;> rw [hy] at h
        · exact Except.noConfusion h
        · obtain rfl : vp ++ rest = vl := Except.ok.inj h
          rw [List.mem_append, expandPart_mem hx, ih hy]
          constructor
          · rintro (hd | ⟨q, hq, hdq⟩)
            · exact ⟨p, List.mem_cons_self _ _, hd⟩
            · exact ⟨q, List.mem_cons_of_mem _ hq, hdq⟩
          · rintro ⟨q, hq, hdq⟩
            rcases List.mem_cons.mp hq with rfl | hq
            · exact Or.inl hdq
            · exact Or.inr ⟨q, hq, hdq⟩

lemma expandAll_mem {ms : List Str} {vl : List Nat} (h : expandAll ms = .ok vl) (v : Nat) :
    v ∈ vl ↔ ∃ m ∈ ms, ∃ p ∈ splitOnC 44 m, tokenDenotes p v := by
  induction ms generalizing vl with
  | nil =>
      obtain rfl : ([] : List Nat) = vl := Except.ok.inj h
      simp
  | cons m ms ih =>
      unfold expandAll at h
      rcases hx : expandParts (splitOnC 44 m) with e | vm <;> rw [hx] at h
      · rcases hy : expandAll ms with e2 | rest <;> rw [hy] at h <;> exact Except.noConfusion h
      · rcases hy : expandAll ms with e | rest <;> rw [hy] at h
        · exact Except.noConfusion h
        · obtain rfl : vm ++ rest = vl := Except.ok.inj h
          rw [List.mem_append, expandParts_mem hx, ih hy]
          constructor
          · rintro (⟨q, hq, hdq⟩ | ⟨m', hm', rest'⟩)
            · exact ⟨m, List.mem_cons_self _ _, q, hq, hdq⟩
            · exact ⟨m', List.mem_cons_of_mem _ hm', rest'⟩
          · rintro ⟨m', hm', q, hq, hdq⟩
            rcases List.mem_cons.mp hm' with rfl | hm'
            · exact Or.inl ⟨q, hq, hdq⟩
            · exact Or.inr ⟨m', hm', q, hq, hdq⟩

lemma parseBlock_allowed {b n : Str} {d : ParsedInterface}
    (h : parseBlock b = .ok (some (n, d))) (hm : d.mode = some PMode.trunk) :
    ∃ vl, expandAll (findAllowed (cfgOf b)) = .ok vl ∧
      d.allowed_vlans = (if vl ≠ [] then some (AllowedVlans.listed (sortDedup vl))
        else if findAllowed (cfgOf b) = [] then some AllowedVlans.all else none) := by
  unfold parseBlock at h
  split at h
  · exact absurd (Except.ok.inj h) (by simp)
  · next l0 restLines hls =>
      have hc : cfgOf b = joinNL restLines := by
        unfold cfgOf
        rw [hls, List.tail_cons]
      rw [hc]
      split at h
      · split at h
        · split at h
          · exact absurd h (by simp)
          · next av heq =>
              obtain ⟨hn, hd⟩ := Prod.mk.inj (Option.some.inj (Except.ok.inj h))
              unfold allowedOf at heq
              rcases hx : expandAll (findAllowed (joinNL restLines)) with e | vl <;>
                rw [hx] at heq
              · exact Except.noConfusion heq
              · obtain rfl : (if vl ≠ [] then some (AllowedVlans.listed (sortDedup vl))
                    else if findAllowed (joinNL restLines) = [] then some AllowedVlans.all
                    else none) = av := Except.ok.inj heq
                refine ⟨vl, rfl, ?_⟩
                rw [← hd]
        · -- access branch contradicts `hm`
          obtain ⟨hn, hd⟩ := Prod.mk.inj (Option.some.inj (Except.ok.inj h))
          rw [← hd] at hm
          next heq =>
            have : modeOf restLines (joinNL restLines) = PMode.trunk := by
              have hbm : (basePI b l0 restLines).mode
                  = some (modeOf restLines (joinNL restLines)) := rfl
              exact Option.some.inj ((hbm.symm.trans hm))
            rw [heq] at this
            exact PMode.noConfusion this
      · exact absurd (Except.ok.inj h) (by simp)

/-- C8: for every trunk-mode block, the stored `allowed_vlans` is the sorted,
deduplicated union of all numeric tokens and inclusive ranges captured across
every `switchport trunk allowed vlan [add]` directive; it is the `ALL` sentinel
exactly when no directive was captured, and the key is absent exactly when
directives were captured but denote no VLAN number. -/
theorem claim_C8_theorem (b n : Str) (d : ParsedInterface)
    (h : parseBlock b = .ok (some (n, d))) (hm : d.mode = some PMode.trunk) :
    (d.allowed_vlans = some AllowedVlans.all ↔ findAllowed (cfgOf b) = []) ∧
    (d.allowed_vlans = none ↔
      (findAllowed (cfgOf b) ≠ [] ∧
        ∀ v, ¬ ∃ m ∈ findAllowed (cfgOf b), ∃ p ∈ splitOnC 44 m, tokenDenotes p v)) ∧
    (∀ L, d.allowed_vlans = some (AllowedVlans.listed L) →
      L.Sorted (· < ·) ∧
      (∀ v, v ∈ L ↔ ∃ m ∈ findAllowed (cfgOf b), ∃ p ∈ splitOnC 44 m, tokenDenotes p v)) := by
  obtain ⟨vl, hvl, hav⟩ := parseBlock_allowed h hm
  have hden : ∀ v, v ∈ vl ↔ ∃ m ∈ findAllowed (cfgOf b), ∃ p ∈ splitOnC 44 m, tokenDenotes p v :=
    expandAll_mem hvl
  by_cases hne : vl = []
  · subst hne
    rw [if_neg (by simp)] at hav
    by_cases hms : findAllowed (cfgOf b) = []
    · rw [if_pos hms] at hav
      refine ⟨?_, ?_, ?_⟩
      · rw [hav]
        simp [hms]
      · rw [hav]
        simp [hms]
      · intro L hL
        rw [hav] at hL
        exact absurd (Option.some.inj hL) (by simp)
    · rw [if_neg hms] at hav
      refine ⟨?_, ?_, ?_⟩
      · rw [hav]
        simp [hms]
      · rw [hav]
        simp only [true_iff]
        refine ⟨hms, ?_⟩
        intro v hv
        exact absurd ((hden v).mpr hv) (by simp)
      · intro L hL
        rw [hav] at hL
        exact Option.noConfusion hL
  · rw [if_pos hne] at hav
    have hms : findAllowed (cfgOf b) ≠ [] := by
      intro hcon
      rw [hcon] at hvl
      have : ([] : List Nat) = vl := Except.ok.inj hvl
      exact hne this.symm
    obtain ⟨v0, hv0⟩ := List.exists_mem_of_ne_nil vl hne
    refine ⟨?_, ?_, ?_⟩
    · rw [hav]
      simp [hms]
    · rw [hav]
      simp only [reduceCtorEq, false_iff, not_and, not_forall]
      intro _
      exact ⟨v0, by simpa using (hden v0).mp hv0⟩
    · intro L hL
      rw [hav] at hL
      obtain rfl : sortDedup vl = L := by
        have := Option.some.inj hL
        exact AllowedVlans.listed.inj this
      refine ⟨sortDedup_sorted vl, ?_⟩
      intro v
      rw [sortDedup_mem, hden]

/-- C8 witness inputs: the range-expansion example block and its descriptor. -/
def c8b : Str := s2l "interface Gi3\n switchport trunk allowed vlan 10,12-14"

def c8d : ParsedInterface :=
  { enabled := some true, mode := some PMode.trunk,
    allowed_vlans := some (AllowedVlans.listed [10, 12, 13, 14]) }

/-- Witness for C8 at the range-expansion example. -/
theorem claim_C8_witness :
    parseBlock c8b = .ok (some (s2l "Gi3", c8d)) ∧
    ((c8d.allowed_vlans = some AllowedVlans.all ↔ findAllowed (cfgOf c8b) = []) ∧
     (c8d.allowed_vlans = none ↔
       (findAllowed (cfgOf c8b) ≠ [] ∧
         ∀ v, ¬ ∃ m ∈ findAllowed (cfgOf c8b), ∃ p ∈ splitOnC 44 m, tokenDenotes p v)) ∧
     (∀ L, c8d.allowed_vlans = some (AllowedVlans.listed L) →
       L.Sorted (· < ·) ∧
       (∀ v, v ∈ L ↔ ∃ m ∈ findAllowed (cfgOf c8b), ∃ p ∈ splitOnC 44 m, tokenDenotes p v))) :=
  ⟨by decide, claim_C8_theorem c8b (s2l "Gi3") c8d (by decide) rfl⟩
